import Mathlib

/-!
# runany: heuristic launcher for an unpacked software package

A shallow embedding of `runany.go`.  Every function of the source is a Lean
function of the same name.  Effects are explicit: a function that talks to the
operating system takes the trace of events so far and returns its result
together with the extended trace.  What the operating system answers and what
the Go standard library computes in the functions that are not transcribed
here is read from an `Env`.

`runDirectory` can call itself through the extraction actions without bound,
so it carries a fuel argument; `none` stands for a run that has not finished
within the fuel.
-/

namespace Runany

/-! ## Data model -/

/-- Go `error`: `none` is `nil`, `some msg` an error whose message is `msg`. -/
abbrev GoError := Option String

/-- An argument of `fmt.Printf`. -/
inductive PrintArg where
  | int (i : Int)
  | str (s : String)
  deriving DecidableEq, Repr

/-- What the program does to the outside world, in the order it does it. -/
inductive Event where
  /-- An external program is started: `exec.Command(name, arg...)`, with
  `cmd.Dir` when the source sets it, then `Output()` or `Run()`. -/
  | exec (name : String) (arg : List String) (dir : Option String)
  /-- The call `os.Chmod(path, mode)`. -/
  | chmod (path : String) (mode : Nat)
  /-- The call `filepath.Walk(root, ...)`. -/
  | walk (root : String)
  /-- The call `fmt.Printf(format, args...)`. -/
  | printf (format : String) (args : List PrintArg)
  deriving DecidableEq, Repr

/-- The events so far, oldest first. -/
abbrev Trace := List Event

/-- The functions a `WeightedAction` can carry in its `action` field: the
source assigns only these seven top-level functions to it. -/
inductive Action where
  | unzipFileAndRun
  | unrarFileAndRun
  | runJar
  | runWine
  | runLove
  | runExecutable
  | doNothing
  deriving DecidableEq, Repr

/-- The struct `WeightedAction`; Go `int` is `Int` (a score is at most 40 and
at least minus the length of the path, so it never wraps). -/
structure WeightedAction where
  name : String
  score : Int
  path : String
  action : Action
  deriving DecidableEq, Repr

/-- The type `ByScore []WeightedAction`. -/
abbrev ByScore := List WeightedAction

/-- The method `ByScore.Len`. -/
def ByScore.Len (a : ByScore) : Nat := a.length

/-- The method `ByScore.Swap`; an index out of range (a panic in Go) leaves
the slice as it is. -/
def ByScore.Swap (a : ByScore) (i j : Nat) : ByScore :=
  match a[i]?, a[j]? with
  | some x, some y => (a.set i y).set j x
  | _, _ => a

/-- The method `ByScore.Less`: `a[i].score > a[j].score`; an index out of range
(a panic in Go) gives `false`. -/
def ByScore.Less (a : ByScore) (i j : Nat) : Bool :=
  match a[i]?, a[j]? with
  | some x, some y => decide (x.score > y.score)
  | _, _ => false

/-- Everything `runany.go` takes from outside its own text: the Go library
functions that are not transcribed below, and the operating system. -/
structure Env where
  /-- The function `unicode.ToLower` on the runes from U+0080 on. -/
  unicodeToLower : Char → Char
  /-- The media type returned by `mime.ParseMediaType` (its first result; the
  source discards the parameters and the error). -/
  parseMediaType : String → String
  /-- The function `filepath.Dir`. -/
  filepathDir : String → String
  /-- The path returned by `filepath.Abs` (the source discards the error). -/
  filepathAbs : String → String
  /-- The slice after `sort.Sort(ByScore(actions))`; what the library promises
  of it is `SortContract`. -/
  sortSort : ByScore → ByScore
  /-- The outcome of running an external program after the events so far:
  its standard output, or the error of `Output()` or `Run()`. -/
  run : Trace → String → List String → Option String → Except String String
  /-- The calls `filepath.Walk` makes to its callback on this root after the
  events so far, as long as the callback returns `nil`: the path and the
  error passed at each call. -/
  walkEntries : Trace → String → List (String × GoError)

/-- What the documentation of `sort.Sort` promises: the data is sorted in
increasing order as determined by the `Less` method (no later element is
`Less` than an earlier one), by swapping elements only.  It does not promise
stability. -/
def SortContract (sortSort : ByScore → ByScore) : Prop :=
  (∀ a : ByScore, (sortSort a).Perm a) ∧
    ∀ (a : ByScore) (i j : Nat), i < j → j < (sortSort a).length →
      ByScore.Less (sortSort a) j i = false

/-! ## Go library functions transcribed here -/

/-- The function `unicode.IsSpace`. -/
def isSpace (c : Char) : Bool :=
  let n := c.toNat
  (9 ≤ n && n ≤ 13) || n = 0x20 || n = 0x85 || n = 0xA0 || n = 0x1680 ||
    (0x2000 ≤ n && n ≤ 0x200A) || n = 0x2028 || n = 0x2029 || n = 0x202F ||
    n = 0x205F || n = 0x3000

/-- The function `strings.TrimSpace`. -/
def stringsTrimSpace (s : String) : String :=
  ⟨((s.data.dropWhile isSpace).reverse.dropWhile isSpace).reverse⟩

/-- The function `strings.ToLower`: each rune is mapped by `unicode.ToLower`,
which on ASCII turns `A`..`Z` into `a`..`z`. -/
def stringsToLower (env : Env) (s : String) : String :=
  ⟨s.data.map (fun c => if c.toNat < 128 then c.toLower else env.unicodeToLower c)⟩

/-- The function `strings.Count(s, sep)` for a separator of one character. -/
def stringsCount (s : String) (sep : Char) : Nat :=
  s.data.count sep

/-- The loop of `filepath.Ext`, on the reversed path: walk back from the end
up to the first separator; at a dot return the suffix from that dot. -/
def extLoop : List Char → List Char → List Char
  | [], _ => []
  | c :: rest, acc =>
    if c = '/' then []
    else if c = '.' then '.' :: acc
    else extLoop rest (c :: acc)

/-- The function `filepath.Ext`. -/
def filepathExt (path : String) : String :=
  ⟨extLoop path.data.reverse []⟩

/-- The function `filepath.Walk`: the callback is called on each entry in
turn, and the first error it returns ends the walk and is the result. -/
def filepathWalk {σ : Type} (walkFn : String → GoError → σ → GoError × σ) :
    List (String × GoError) → σ → GoError × σ
  | [], s => (none, s)
  | (p, e) :: rest, s =>
    match walkFn p e s with
    | (some err, s1) => (some err, s1)
    | (none, s1) => filepathWalk walkFn rest s1

/-- The calls `exec.Command(name, arg...)`, `cmd.Dir = dir`, `cmd.Run()`. -/
def execRun (env : Env) (name : String) (arg : List String) (dir : String) (t : Trace) :
    GoError × Trace :=
  match env.run t name arg (some dir) with
  | .error e => (some e, t ++ [Event.exec name arg (some dir)])
  | .ok _ => (none, t ++ [Event.exec name arg (some dir)])

/-! ## The functions of runany.go -/

/-- The function `cmd`. -/
def cmd (env : Env) (name : String) (arg : List String) (t : Trace) :
    (String × GoError) × Trace :=
  match env.run t name arg none with
  | .error err => (("", some err), t ++ [Event.exec name arg none])
  | .ok out => ((stringsTrimSpace out, none), t ++ [Event.exec name arg none])

/-- The function `getMime`. -/
def getMime (env : Env) (filePath : String) (t : Trace) : String × Trace :=
  match cmd env "file" ["--brief", "--mime", filePath] t with
  | ((_, some _), t1) => ("", t1)
  | ((mimeStr, none), t1) => (env.parseMediaType mimeStr, t1)

/-- The function `ReadDirRecursive`. -/
def ReadDirRecursive (env : Env) (path : String) (t : Trace) :
    (List String × GoError) × Trace :=
  match filepathWalk (fun p err (result : List String) => (err, result ++ [p]))
      (env.walkEntries t path) [] with
  | (err, result) => ((result, err), t ++ [Event.walk path])

/-- The function `unzipFile`. -/
def unzipFile (env : Env) (path : String) (t : Trace) : GoError × Trace :=
  match cmd env "unzip" ["-d", env.filepathDir path, path] t with
  | ((_, err), t1) =>
    match cmd env "rm" [path] t1 with
    | (_, t2) => (err, t2)

/-- The function `unrarFile`. -/
def unrarFile (env : Env) (path : String) (t : Trace) : GoError × Trace :=
  execRun env "unrar" ["x", path] (env.filepathDir path) t

/-- The function `runJar`. -/
def runJar (env : Env) (path : String) (t : Trace) : GoError × Trace :=
  execRun env "java" ["-jar", path] (env.filepathDir path) t

/-- The function `runWine`. -/
def runWine (env : Env) (path : String) (t : Trace) : GoError × Trace :=
  execRun env "wine" [path] (env.filepathDir path) t

/-- The function `runLove`. -/
def runLove (env : Env) (path : String) (t : Trace) : GoError × Trace :=
  execRun env "love" [path] (env.filepathDir path) t

/-- The function `runExecutable`; `0755` is 493. -/
def runExecutable (env : Env) (path : String) (t : Trace) : GoError × Trace :=
  execRun env path [] (env.filepathDir path) (t ++ [Event.chmod path 493])

/-- The function `doNothing`. -/
def doNothing (_path : String) (t : Trace) : GoError × Trace :=
  (none, t)

/-- The function `getWeightedAction`.  The last case of the switch calls
`getMime` only when its extension test holds (`&&` is short-circuit). -/
def getWeightedAction (env : Env) (path : String) (t : Trace) : WeightedAction × Trace :=
  let ext := stringsToLower env (filepathExt path)
  let depth : Int := stringsCount path '/'
  if ext = ".zip" then
    ({ name := "unzip", score := 10 - depth, path := path, action := Action.unzipFileAndRun }, t)
  else if ext = ".rar" then
    ({ name := "unrar", score := 10 - depth, path := path, action := Action.unrarFileAndRun }, t)
  else if ext = ".jar" then
    ({ name := "java", score := 30 - depth, path := path, action := Action.runJar }, t)
  else if ext = ".exe" then
    ({ name := "windows", score := 20 - depth, path := path, action := Action.runWine }, t)
  else if ext = ".love" then
    ({ name := "love", score := 30 - depth, path := path, action := Action.runLove }, t)
  else if ext = ".sh" then
    ({ name := "shell", score := 30 - depth, path := path, action := Action.runLove }, t)
  else if ext = "" ∨ ext = ".x86" ∨ ext = ".x86_64" ∨ ext = ".bin" then
    match getMime env path t with
    | (mimeType, t1) =>
      if mimeType = "application/x-executable" then
        ({ name := "native", score := 40 - depth, path := path,
           action := Action.runExecutable }, t1)
      else
        ({ name := "nothing", score := 0 - depth, path := path, action := Action.doNothing }, t1)
  else
    ({ name := "nothing", score := 0 - depth, path := path, action := Action.doNothing }, t)

/-- The `for ... range childPaths` loop of `getWeightedActions`. -/
def getWeightedActionsLoop (env : Env) :
    List String → List WeightedAction → Trace → List WeightedAction × Trace
  | [], result, t => (result, t)
  | childPath :: rest, result, t =>
    match getWeightedAction env childPath t with
    | (wa, t1) => getWeightedActionsLoop env rest (result ++ [wa]) t1

/-- The function `getWeightedActions`. -/
def getWeightedActions (env : Env) (parentPath : String) (t : Trace) :
    (List WeightedAction × GoError) × Trace :=
  match ReadDirRecursive env parentPath t with
  | ((_, some err), t1) => (([], some err), t1)
  | ((childPaths, none), t1) =>
    match getWeightedActionsLoop env childPaths [] t1 with
    | (result, t2) => ((result, none), t2)

/-- The function `errorToString`. -/
def errorToString (err : GoError) : String :=
  match err with
  | some msg => msg
  | none => "success"

/-- The function `unzipFileAndRun`, with `runDirectory` as `rd`. -/
def unzipFileAndRun (env : Env) (rd : String → Trace → Option (GoError × Trace))
    (path : String) (t : Trace) : Option (GoError × Trace) :=
  match unzipFile env path t with
  | (some err, t1) => some (some err, t1)
  | (none, t1) => rd (env.filepathDir path) t1

/-- The function `unrarFileAndRun`, with `runDirectory` as `rd`. -/
def unrarFileAndRun (env : Env) (rd : String → Trace → Option (GoError × Trace))
    (path : String) (t : Trace) : Option (GoError × Trace) :=
  match unrarFile env path t with
  | (some err, t1) => some (some err, t1)
  | (none, t1) => rd (env.filepathDir path) t1

/-- The call `action.action(action.path)` through the function value. -/
def callAction (env : Env) (rd : String → Trace → Option (GoError × Trace)) :
    Action → String → Trace → Option (GoError × Trace)
  | Action.unzipFileAndRun, path, t => unzipFileAndRun env rd path t
  | Action.unrarFileAndRun, path, t => unrarFileAndRun env rd path t
  | Action.runJar, path, t => some (runJar env path t)
  | Action.runWine, path, t => some (runWine env path t)
  | Action.runLove, path, t => some (runLove env path t)
  | Action.runExecutable, path, t => some (runExecutable env path t)
  | Action.doNothing, path, t => some (doNothing path t)

/-- The `for ... range actions` loop of `runDirectory`. -/
def runDirectoryLoop (env : Env) (rd : String → Trace → Option (GoError × Trace)) :
    List WeightedAction → Trace → Option Trace
  | [], t => some t
  | action :: rest, t =>
    match callAction env rd action.action action.path
        (t ++ [Event.printf "%d: %s: %s\n"
          [PrintArg.int action.score, PrintArg.str action.name, PrintArg.str action.path]]) with
    | none => none
    | some (none, t1) =>
      some (t1 ++ [Event.printf "Error: %s\n" [PrintArg.str (errorToString none)]])
    | some (some _, t1) => runDirectoryLoop env rd rest t1

/-- The body of `runDirectory`, with the recursive calls made through `rd`. -/
def runDirectoryBody (env : Env) (rd : String → Trace → Option (GoError × Trace))
    (path : String) (t : Trace) : Option (GoError × Trace) :=
  match getWeightedActions env path t with
  | ((_, some err), t1) => some (some err, t1)
  | ((actions, none), t1) =>
    match runDirectoryLoop env rd (env.sortSort actions) t1 with
    | none => none
    | some t2 => some (none, t2)

/-- The function `runDirectory`; the fuel bounds the depth of the calls of
`runDirectory` inside one another. -/
def runDirectory (env : Env) : Nat → String → Trace → Option (GoError × Trace)
  | 0, _, _ => none
  | fuel + 1, path, t => runDirectoryBody env (runDirectory env fuel) path t

/-- The function `main` on the command-line arguments left after
`flag.Parse()`; the result is the exit status.  Without an argument
`flag.Args()[0]` panics, and the Go runtime exits with status 2. -/
def main (env : Env) (fuel : Nat) (args : List String) (t : Trace) : Option (Nat × Trace) :=
  match args with
  | [] => some (2, t)
  | arg0 :: _ =>
    match runDirectory env fuel (env.filepathAbs arg0) t with
    | none => none
    | some (none, t1) => some (0, t1)
    | some (some err, t1) =>
      some (1, t1 ++ [Event.printf "Failed to run package: %s\n"
        [PrintArg.str (errorToString (some err))]])

/-! ## Terms of the statements -/

/-- The line `runDirectory` prints before it attempts a candidate. -/
def candidateLine (a : WeightedAction) : Event :=
  Event.printf "%d: %s: %s\n" [PrintArg.int a.score, PrintArg.str a.name, PrintArg.str a.path]

/-- The line `runDirectory` prints after an action has returned `nil`. -/
def successLine : Event :=
  Event.printf "Error: %s\n" [PrintArg.str "success"]

/-- The table of section 4.1 of the specification, in its words: the strategy
name and the base weight for a lower-cased extension and a sniffed media
type. -/
def catalogTable (ext mime : String) : String × Int :=
  if ext = ".jar" then ("java", 30)
  else if ext = ".love" then ("love", 30)
  else if ext = ".sh" then ("shell", 30)
  else if ext = ".exe" then ("windows", 20)
  else if ext = ".zip" then ("unzip", 10)
  else if ext = ".rar" then ("unrar", 10)
  else if (ext = "" ∨ ext = ".x86" ∨ ext = ".x86_64" ∨ ext = ".bin") ∧
      mime = "application/x-executable" then ("native", 40)
  else ("nothing", 0)

/-- The base weight the source pairs with each strategy name. -/
def baseWeight (name : String) : Int :=
  if name = "native" then 40
  else if name = "java" ∨ name = "love" ∨ name = "shell" then 30
  else if name = "windows" then 20
  else if name = "unzip" ∨ name = "unrar" then 10
  else 0

/-- The extensions on which `getWeightedAction` asks the sniffer. -/
def sniffedExt (ext : String) : Prop :=
  ext = "" ∨ ext = ".x86" ∨ ext = ".x86_64" ∨ ext = ".bin"

instance sniffedExt_decidable (ext : String) : Decidable (sniffedExt ext) := by
  unfold sniffedExt
  infer_instance

/-- The do-nothing candidate of a path. -/
def nothingCandidate (path : String) : WeightedAction :=
  { name := "nothing", score := 0 - (stringsCount path '/' : Int), path := path,
    action := Action.doNothing }

/-- A path whose extension is neither in the catalog nor one the sniffer is
asked about. -/
def unmatchedExt (env : Env) (path : String) : Prop :=
  stringsToLower env (filepathExt path) ∉ [".zip", ".rar", ".jar", ".exe", ".love", ".sh"] ∧
    ¬ sniffedExt (stringsToLower env (filepathExt path))

instance unmatchedExt_decidable (env : Env) (path : String) : Decidable (unmatchedExt env path) := by
  unfold unmatchedExt
  infer_instance

/-- The order `sort.Sort` needs between neighbours: the earlier element does
not have the smaller score. -/
def scoreGe (x y : WeightedAction) : Prop := x.score ≥ y.score

instance scoreGe_decidable : DecidableRel scoreGe :=
  fun x y => inferInstanceAs (Decidable (x.score ≥ y.score))

instance scoreGe_total : IsTotal WeightedAction scoreGe :=
  ⟨fun x y => by unfold scoreGe; omega⟩

instance scoreGe_trans : IsTrans WeightedAction scoreGe :=
  ⟨fun x y z hxy hyz => by unfold scoreGe at *; omega⟩

/-! ## Concrete environments -/

/-- The insertion sort by score.  An insertion sort is all that `sort.Sort`
does on a short slice (up to 12 elements since Go 1.19, up to 7 in the
first releases). -/
def insertionSortByScore (a : ByScore) : ByScore :=
  List.insertionSort scoreGe a

/-- The ShellSort pass of `quickSort` in package `sort`, as it stands in the
Go releases before the pattern-defeating quicksort of Go 1.19:
`for i := a + 6; i < b; i++ { if data.Less(i, i-6) { data.Swap(i, i-6) } }`,
with `a = 0`; the first argument counts the iterations left. -/
def shellPassLoop : Nat → Nat → ByScore → ByScore
  | 0, _, data => data
  | k + 1, i, data =>
    shellPassLoop k (i + 1) (if ByScore.Less data i (i - 6) then ByScore.Swap data i (i - 6) else data)

/-- What `quickSort` of those releases does on a slice of at most 12 elements:
the ShellSort pass with gap 6, then the insertion sort.  (On a longer slice Go
partitions first; the function here is a sort on every slice all the same.) -/
def shellInsertionSort (a : ByScore) : ByScore :=
  insertionSortByScore (shellPassLoop (a.length - 6) 6 a)

/-- The directory of a clean path: the text before its last separator. -/
def dirOfCleanPath (path : String) : String :=
  match ((path.data.reverse.dropWhile (fun c => c ≠ '/')).dropWhile (fun c => c = '/')).reverse with
  | [] => if '/' ∈ path.data then "/" else "."
  | d => ⟨d⟩

/-- The media type of a well-formed value: the text before the first `;`. -/
def mediaTypeBeforeSemicolon (v : String) : String :=
  stringsTrimSpace ⟨v.data.takeWhile (fun c => c ≠ ';')⟩

/-- An environment whose `sort.Sort` is the insertion sort, whose paths are
clean and whose media types are well-formed. -/
def insertionSortEnv (run : Trace → String → List String → Option String → Except String String)
    (walkEntries : Trace → String → List (String × GoError)) : Env where
  unicodeToLower := fun c => c
  parseMediaType := mediaTypeBeforeSemicolon
  filepathDir := dirOfCleanPath
  filepathAbs := fun p => p
  sortSort := insertionSortByScore
  run := run
  walkEntries := walkEntries

/-- An environment whose `sort.Sort` is the ShellSort pass followed by the
insertion sort. -/
def shellSortEnv (run : Trace → String → List String → Option String → Except String String)
    (walkEntries : Trace → String → List (String × GoError)) : Env where
  unicodeToLower := fun c => c
  parseMediaType := mediaTypeBeforeSemicolon
  filepathDir := dirOfCleanPath
  filepathAbs := fun p => p
  sortSort := shellInsertionSort
  run := run
  walkEntries := walkEntries

/-- A package directory `/g` that holds `a.jar` and `b.exe`; `java` fails on
the jar, `wine` runs the exe. -/
def jarExeEnv : Env :=
  insertionSortEnv
    (fun _ name _ _ =>
      if name = "file" then Except.ok "inode/directory; charset=binary\n"
      else if name = "wine" then Except.ok ""
      else Except.error "exit status 1")
    (fun _ root =>
      if root = "/g" then [("/g", none), ("/g/a.jar", none), ("/g/b.exe", none)]
      else [(root, some "no such file or directory")])

/-- A package directory `/tmp/g` that holds the one file `a.zip`. -/
def zipInTmpEnv : Env :=
  insertionSortEnv
    (fun _ name _ _ =>
      if name = "file" then Except.ok "inode/directory; charset=binary\n"
      else Except.error "exit status 1")
    (fun _ root =>
      if root = "/tmp/g" then [("/tmp/g", none), ("/tmp/g/a.zip", none)]
      else [(root, some "no such file or directory")])

/-- A package directory `/g` with an archive eleven directories down and
nothing else to launch. -/
def deepZipEnv : Env :=
  insertionSortEnv
    (fun _ name _ _ =>
      if name = "file" then Except.ok "inode/directory; charset=binary\n"
      else Except.error "exit status 1")
    (fun _ root =>
      if root = "/g" then
        [("/g", none), ("/g/1", none), ("/g/1/2", none), ("/g/1/2/3", none),
         ("/g/1/2/3/4", none), ("/g/1/2/3/4/5", none), ("/g/1/2/3/4/5/6", none),
         ("/g/1/2/3/4/5/6/7", none), ("/g/1/2/3/4/5/6/7/8", none),
         ("/g/1/2/3/4/5/6/7/8/9", none), ("/g/1/2/3/4/5/6/7/8/9/10", none),
         ("/g/1/2/3/4/5/6/7/8/9/10/a.zip", none)]
      else [(root, some "no such file or directory")])

/-- A package directory `/g` with two jars, four text files and the native
executable `game`, in the lexical order in which `filepath.Walk` visits
them. -/
def twoJarsEnv : Env :=
  shellSortEnv
    (fun _ name arg _ =>
      if name = "file" then
        if arg = ["--brief", "--mime", "/g/game"] then
          Except.ok "application/x-executable; charset=binary\n"
        else Except.ok "inode/directory; charset=binary\n"
      else Except.error "exit status 1")
    (fun _ root =>
      if root = "/g" then
        [("/g", none), ("/g/a.jar", none), ("/g/b.jar", none), ("/g/c.txt", none),
         ("/g/d.txt", none), ("/g/e.txt", none), ("/g/f.txt", none), ("/g/game", none)]
      else [(root, some "no such file or directory")])

/-- A flat package directory `/g` that holds `notes.txt` and `photo.jpg`. -/
def txtJpgEnv : Env :=
  insertionSortEnv
    (fun _ name _ _ =>
      if name = "file" then Except.ok "inode/directory; charset=binary\n"
      else Except.error "exit status 1")
    (fun _ root =>
      if root = "/g" then [("/g", none), ("/g/notes.txt", none), ("/g/photo.jpg", none)]
      else [(root, some "no such file or directory")])

/-- A machine without the command `file`: every external program fails to
start. -/
def noFileCommandEnv : Env :=
  insertionSortEnv
    (fun _ _ _ _ => Except.error "executable file not found in PATH")
    (fun _ root => [(root, none)])

/-- A package directory `/g` with `setup.exe` right under it and the native
executable `game` two directories down, in the order of `filepath.Walk`. -/
def exeNativeEnv : Env :=
  insertionSortEnv
    (fun _ name arg _ =>
      if name = "file" then
        if arg = ["--brief", "--mime", "/g/bin/linux/game"] then
          Except.ok "application/x-executable; charset=binary\n"
        else Except.ok "inode/directory; charset=binary\n"
      else if name = "/g/bin/linux/game" then Except.ok ""
      else Except.error "exit status 1")
    (fun _ root =>
      if root = "/g" then
        [("/g", none), ("/g/bin", none), ("/g/bin/linux", none),
         ("/g/bin/linux/game", none), ("/g/setup.exe", none)]
      else [(root, some "no such file or directory")])

/-- The candidates of a list are attempted in turn, as the loop of
`runDirectory` attempts them, and every action returns an error: the result
is the trace after the last of them, and `none` when an action returns `nil`
or does not return. -/
def failAll (env : Env) (rd : String → Trace → Option (GoError × Trace)) :
    List WeightedAction → Trace → Option Trace
  | [], t => some t
  | a :: rest, t =>
    match callAction env rd a.action a.path (t ++ [candidateLine a]) with
    | some (some _, t1) => failAll env rd rest t1
    | _ => none

/-- The action the source pairs with each strategy name. -/
def actionOfName (name : String) : Action :=
  if name = "unzip" then Action.unzipFileAndRun
  else if name = "unrar" then Action.unrarFileAndRun
  else if name = "java" then Action.runJar
  else if name = "windows" then Action.runWine
  else if name = "love" ∨ name = "shell" then Action.runLove
  else if name = "native" then Action.runExecutable
  else Action.doNothing

/-- What `unicode.ToLower` does to one rune inside `strings.ToLower`. -/
def toLowerRune (env : Env) (c : Char) : Char :=
  if c.toNat < 128 then c.toLower else env.unicodeToLower c

/-! ## Lemmas on the sort -/

/-- In a list sorted by `scoreGe` no later element is `Less` than an earlier
one. -/
theorem less_eq_false_of_pairwise (l : ByScore) (h : l.Pairwise scoreGe) (i j : Nat)
    (hij : i < j) (hj : j < l.length) : ByScore.Less l j i = false := by
  have hi : i < l.length := Nat.lt_trans hij hj
  have hr : scoreGe l[i] l[j] := (List.pairwise_iff_getElem.mp h) i j hi hj hij
  unfold ByScore.Less
  rw [List.getElem?_eq_getElem hj, List.getElem?_eq_getElem hi]
  unfold scoreGe at hr
  simp only [decide_eq_false_iff_not]
  omega

/-- In a list that `sort.Sort` has left in order, scores do not increase. -/
theorem pairwise_of_less_eq_false (l : ByScore)
    (h : ∀ i j : Nat, i < j → j < l.length → ByScore.Less l j i = false) :
    l.Pairwise scoreGe := by
  rw [List.pairwise_iff_getElem]
  intro i j hi hj hij
  have hl := h i j hij hj
  unfold ByScore.Less at hl
  rw [List.getElem?_eq_getElem hj, List.getElem?_eq_getElem hi] at hl
  simp only [decide_eq_false_iff_not] at hl
  unfold scoreGe
  omega

/-- The ranked list of a `sort.Sort` that keeps its contract has
non-increasing scores. -/
theorem sortSort_pairwise (env : Env) (hsort : SortContract env.sortSort) (a : ByScore) :
    (env.sortSort a).Pairwise scoreGe :=
  pairwise_of_less_eq_false _ (hsort.2 a)

/-- The insertion sort keeps the contract of `sort.Sort`. -/
theorem insertionSortByScore_contract : SortContract insertionSortByScore :=
  ⟨fun a => List.perm_insertionSort scoreGe a,
   fun a i j hij hj =>
    less_eq_false_of_pairwise _ (List.sorted_insertionSort scoreGe a) i j hij hj⟩

/-- Swapping two elements permutes the slice. -/
theorem swap_perm (a : ByScore) (i j : Nat) : (ByScore.Swap a i j).Perm a := by
  unfold ByScore.Swap
  rcases hi : a[i]? with _ | x
  · exact List.Perm.refl a
  rcases hj : a[j]? with _ | y
  · exact List.Perm.refl a
  obtain ⟨hil, hix⟩ := List.getElem?_eq_some.mp hi
  obtain ⟨hjl, hjy⟩ := List.getElem?_eq_some.mp hj
  simp only
  rw [List.perm_iff_count]
  intro b
  have hjl2 : j < (a.set i y).length := by simpa using hjl
  rw [List.count_set x b (a.set i y) j hjl2, List.count_set y b a i hil]
  have hget : (a.set i y)[j] = y := by
    rw [List.getElem_set]
    split
    · rfl
    · exact hjy
  rw [hget, hix]
  have hle := List.boole_getElem_le_count b a i hil
  rw [hix] at hle
  generalize List.count b a = n at hle ⊢
  split_ifs at hle ⊢ <;> omega

/-- The ShellSort pass permutes the slice. -/
theorem shellPassLoop_perm (k i : Nat) (data : ByScore) : (shellPassLoop k i data).Perm data := by
  induction k generalizing i data with
  | zero => exact List.Perm.refl data
  | succ k ih =>
    unfold shellPassLoop
    refine (ih (i + 1) _).trans ?_
    split
    · exact swap_perm data i (i - 6)
    · exact List.Perm.refl data

/-- The ShellSort pass followed by the insertion sort keeps the contract of
`sort.Sort`. -/
theorem shellInsertionSort_contract : SortContract shellInsertionSort :=
  ⟨fun a => (List.perm_insertionSort scoreGe _).trans (shellPassLoop_perm (a.length - 6) 6 a),
   fun _ i j hij hj =>
    less_eq_false_of_pairwise _ (List.sorted_insertionSort scoreGe _) i j hij hj⟩

/-- In a list of non-increasing scores that holds two candidates, the one of
strictly higher score comes before the other. -/
theorem sublist_pair_of_pairwise (l : ByScore) (a b : WeightedAction)
    (hl : l.Pairwise scoreGe) (ha : a ∈ l) (hb : b ∈ l) (hab : a.score > b.score) :
    List.Sublist [a, b] l := by
  obtain ⟨l1, l2, rfl⟩ := List.append_of_mem ha
  have hp := List.pairwise_append.mp hl
  rcases List.mem_append.mp hb with h1 | h2
  · have := hp.2.2 b h1 a (List.mem_cons_self _ _)
    unfold scoreGe at this
    omega
  · rcases List.mem_cons.mp h2 with h | h
    · subst h; omega
    · exact List.sublist_append_of_sublist_right
        (List.Sublist.cons₂ a (List.singleton_sublist.mpr h))

/-- In a list of non-increasing scores a candidate of strictly lower score
never comes before one of higher score. -/
theorem not_sublist_pair_of_pairwise (l : ByScore) (a b : WeightedAction)
    (hl : l.Pairwise scoreGe) (hab : a.score > b.score) : ¬ List.Sublist [b, a] l := by
  intro hs
  have hp := hl.sublist hs
  rw [List.pairwise_cons] at hp
  have := hp.1 a (List.mem_cons_self _ _)
  unfold scoreGe at this
  omega

/-! ## Lemmas on the functions of runany.go -/

/-- The trace after `cmd`: one more program started. -/
theorem cmd_snd (env : Env) (name : String) (arg : List String) (t : Trace) :
    (cmd env name arg t).2 = t ++ [Event.exec name arg none] := by
  unfold cmd
  split <;> rfl

/-- The trace after `cmd.Run()`: one more program started. -/
theorem execRun_snd (env : Env) (name : String) (arg : List String) (dir : String) (t : Trace) :
    (execRun env name arg dir t).2 = t ++ [Event.exec name arg (some dir)] := by
  unfold execRun
  split <;> rfl

/-- The function `unzipFile` in terms of its two calls of `cmd`. -/
theorem unzipFile_eq (env : Env) (path : String) (t : Trace) :
    unzipFile env path t =
      ((cmd env "unzip" ["-d", env.filepathDir path, path] t).1.2,
       (cmd env "rm" [path] (cmd env "unzip" ["-d", env.filepathDir path, path] t).2).2) := by
  unfold unzipFile
  rfl

/-- The trace after `getMime`: the sniffer `file` has been started once. -/
theorem getMime_snd (env : Env) (filePath : String) (t : Trace) :
    (getMime env filePath t).2 = t ++ [Event.exec "file" ["--brief", "--mime", filePath] none] := by
  unfold getMime
  have h := cmd_snd env "file" ["--brief", "--mime", filePath] t
  rcases hc : cmd env "file" ["--brief", "--mime", filePath] t with ⟨⟨out, err⟩, t1⟩
  rw [hc] at h
  cases err <;> exact h

/-- The candidate of `getWeightedAction` against the catalog table. -/
theorem getWeightedAction_catalog (env : Env) (path : String) (t : Trace) :
    (getWeightedAction env path t).1.name =
      (catalogTable (stringsToLower env (filepathExt path)) (getMime env path t).1).1 ∧
    (getWeightedAction env path t).1.score =
      (catalogTable (stringsToLower env (filepathExt path)) (getMime env path t).1).2 -
        (stringsCount path '/' : Int) ∧
    (getWeightedAction env path t).1.path = path := by
  unfold getWeightedAction catalogTable
  generalize stringsToLower env (filepathExt path) = ext
  generalize getMime env path t = m
  obtain ⟨mimeType, t1⟩ := m
  dsimp only
  by_cases h1 : ext = ".zip"
  · subst h1; simp
  by_cases h2 : ext = ".rar"
  · subst h2; simp
  by_cases h3 : ext = ".jar"
  · subst h3; simp
  by_cases h4 : ext = ".exe"
  · subst h4; simp
  by_cases h5 : ext = ".love"
  · subst h5; simp
  by_cases h6 : ext = ".sh"
  · subst h6; simp
  simp only [h1, h2, h3, h4, h5, h6, if_false]
  by_cases h7 : ext = "" ∨ ext = ".x86" ∨ ext = ".x86_64" ∨ ext = ".bin"
  · by_cases h8 : mimeType = "application/x-executable"
    · simp [h7, h8]
    · simp [h7, h8]
  · simp [h7]

/-- The strategy names of the catalog table, each with its base weight. -/
theorem catalogTable_weight (ext mime : String) :
    (catalogTable ext mime).2 = baseWeight (catalogTable ext mime).1 ∧
    ((catalogTable ext mime).1 = "nothing" ∨ 10 ≤ (catalogTable ext mime).2) := by
  unfold catalogTable
  split_ifs <;> simp [baseWeight]

/-- The score of a candidate is the base weight of its name minus the number
of `/` in its path. -/
theorem getWeightedAction_score (env : Env) (path : String) (t : Trace) :
    (getWeightedAction env path t).1.score =
      baseWeight (getWeightedAction env path t).1.name - (stringsCount path '/' : Int) := by
  obtain ⟨hn, hs, _⟩ := getWeightedAction_catalog env path t
  rw [hs, hn, (catalogTable_weight _ _).1]

/-- A candidate that is not named `nothing` has a base weight of at least 10. -/
theorem getWeightedAction_weight_ge (env : Env) (path : String) (t : Trace)
    (h : (getWeightedAction env path t).1.name ≠ "nothing") :
    10 ≤ baseWeight (getWeightedAction env path t).1.name := by
  obtain ⟨hn, _, _⟩ := getWeightedAction_catalog env path t
  rw [hn] at h ⊢
  rcases (catalogTable_weight (stringsToLower env (filepathExt path)) (getMime env path t).1).2
    with h0 | h10
  · exact absurd h0 h
  · rw [← (catalogTable_weight _ _).1]; exact h10

/-- The last case of the switch and the fall-through of `getWeightedAction`:
on an extension that is none of the six launchable ones, the sniffer decides
when the extension is one it is asked about, and otherwise the candidate is
the do-nothing one and nothing is run. -/
theorem getWeightedAction_unlisted (env : Env) (path : String) (t : Trace)
    (h : stringsToLower env (filepathExt path) ∉ [".zip", ".rar", ".jar", ".exe", ".love", ".sh"]) :
    getWeightedAction env path t =
      if sniffedExt (stringsToLower env (filepathExt path)) then
        if (getMime env path t).1 = "application/x-executable" then
          ({ name := "native", score := 40 - (stringsCount path '/' : Int), path := path,
             action := Action.runExecutable }, (getMime env path t).2)
        else (nothingCandidate path, (getMime env path t).2)
      else (nothingCandidate path, t) := by
  unfold getWeightedAction sniffedExt nothingCandidate
  generalize stringsToLower env (filepathExt path) = ext at h ⊢
  simp only [List.mem_cons, List.mem_singleton, List.not_mem_nil, or_false, not_or] at h
  obtain ⟨h1, h2, h3, h4, h5, h6⟩ := h
  simp only [h1, h2, h3, h4, h5, h6, if_false]

/-- What `getWeightedAction` pairs with the name `nothing`: the action
`doNothing`; the sniffer has been asked exactly when the extension is one of
those it is asked about. -/
theorem getWeightedAction_nothing (env : Env) (path : String) (t : Trace)
    (h : (getWeightedAction env path t).1.name = "nothing") :
    getWeightedAction env path t =
      (nothingCandidate path,
       if sniffedExt (stringsToLower env (filepathExt path)) then
         t ++ [Event.exec "file" ["--brief", "--mime", path] none]
       else t) := by
  by_cases hl : stringsToLower env (filepathExt path) ∈
      [".zip", ".rar", ".jar", ".exe", ".love", ".sh"]
  · exfalso
    revert h
    unfold getWeightedAction
    generalize stringsToLower env (filepathExt path) = ext at hl ⊢
    simp only [List.mem_cons, List.mem_singleton, List.not_mem_nil, or_false] at hl
    rcases hl with rfl | rfl | rfl | rfl | rfl | rfl <;> simp
  · rw [getWeightedAction_unlisted env path t hl] at h ⊢
    rw [getMime_snd] at h ⊢
    split_ifs at h ⊢
    · simp at h
    · rfl
    · rfl

/-- A walk that meets no error passes every path to the callback of
`ReadDirRecursive`. -/
theorem filepathWalk_no_error (ps acc : List String) :
    filepathWalk (fun p err (result : List String) => (err, result ++ [p]))
      (ps.map (fun f => (f, (none : GoError)))) acc = (none, acc ++ ps) := by
  induction ps generalizing acc with
  | nil => simp [filepathWalk]
  | cons p ps ih => simp [filepathWalk, ih]

/-- The result of `ReadDirRecursive` on a walk that meets no error. -/
theorem ReadDirRecursive_no_error (env : Env) (root : String) (t : Trace) (ps : List String)
    (h : env.walkEntries t root = ps.map (fun f => (f, (none : GoError)))) :
    ReadDirRecursive env root t = ((ps, none), t ++ [Event.walk root]) := by
  unfold ReadDirRecursive
  rw [h, filepathWalk_no_error]
  simp

/-- The loop of `getWeightedActions` over paths of unmatched extension adds
their do-nothing candidates and runs nothing. -/
theorem getWeightedActionsLoop_unmatched (env : Env) (files : List String)
    (acc : List WeightedAction) (t : Trace) (h : ∀ f ∈ files, unmatchedExt env f) :
    getWeightedActionsLoop env files acc t = (acc ++ files.map nothingCandidate, t) := by
  induction files generalizing acc with
  | nil => simp [getWeightedActionsLoop]
  | cons f files ih =>
    have hf := h f (List.mem_cons_self _ _)
    have hrest : ∀ g ∈ files, unmatchedExt env g := fun g hg => h g (List.mem_cons_of_mem _ hg)
    unfold getWeightedActionsLoop
    rw [getWeightedAction_unlisted env f t hf.1, if_neg hf.2]
    simp only
    rw [ih (acc ++ [nothingCandidate f]) hrest]
    simp

/-- The loop of `getWeightedActions` only appends to the result it is given. -/
theorem getWeightedActionsLoop_acc (env : Env) (ps : List String) (acc : List WeightedAction)
    (t : Trace) :
    getWeightedActionsLoop env ps acc t =
      (acc ++ (getWeightedActionsLoop env ps [] t).1, (getWeightedActionsLoop env ps [] t).2) := by
  induction ps generalizing acc t with
  | nil => simp [getWeightedActionsLoop]
  | cons p ps ih =>
    unfold getWeightedActionsLoop
    simp only [List.nil_append]
    rw [ih (acc ++ [(getWeightedAction env p t).1]), ih [(getWeightedAction env p t).1]]
    simp

/-- One turn of the loop of `getWeightedActions`. -/
theorem getWeightedActionsLoop_cons (env : Env) (p : String) (ps : List String) (t : Trace) :
    getWeightedActionsLoop env (p :: ps) [] t =
      ((getWeightedAction env p t).1 ::
        (getWeightedActionsLoop env ps [] (getWeightedAction env p t).2).1,
       (getWeightedActionsLoop env ps [] (getWeightedAction env p t).2).2) := by
  have h : getWeightedActionsLoop env (p :: ps) [] t =
      getWeightedActionsLoop env ps ([] ++ [(getWeightedAction env p t).1])
        (getWeightedAction env p t).2 := by
    simp [getWeightedActionsLoop]
  rw [h, getWeightedActionsLoop_acc]
  simp

/-- The loop of `getWeightedActions` makes one candidate for each path. -/
theorem getWeightedActionsLoop_length (env : Env) (ps : List String) (t : Trace) :
    (getWeightedActionsLoop env ps [] t).1.length = ps.length := by
  induction ps generalizing t with
  | nil => simp [getWeightedActionsLoop]
  | cons p ps ih => rw [getWeightedActionsLoop_cons]; simp [ih]

/-- The candidate the loop of `getWeightedActions` makes for the path at
index `i`: that of `getWeightedAction` on it, after the events of the paths
before it. -/
theorem getWeightedActionsLoop_getElem (env : Env) (ps : List String) (t : Trace) (i : Nat)
    (p : String) (h : ps[i]? = some p) :
    (getWeightedActionsLoop env ps [] t).1[i]? =
      some (getWeightedAction env p (getWeightedActionsLoop env (ps.take i) [] t).2).1 := by
  induction ps generalizing t i with
  | nil => simp at h
  | cons q ps ih =>
    rw [getWeightedActionsLoop_cons]
    cases i with
    | zero =>
      simp at h
      subst h
      simp [getWeightedActionsLoop]
    | succ i =>
      simp only [List.getElem?_cons_succ] at h ⊢
      rw [ih _ i h, List.take_succ_cons, getWeightedActionsLoop_cons]

/-- The path of a candidate is the path it was made for. -/
theorem getWeightedAction_path (env : Env) (path : String) (t : Trace) :
    (getWeightedAction env path t).1.path = path :=
  (getWeightedAction_catalog env path t).2.2

/-- The paths of the candidates the loop of `getWeightedActions` makes are
the paths it was given, in order. -/
theorem getWeightedActionsLoop_paths (env : Env) (ps : List String) (t : Trace) :
    (getWeightedActionsLoop env ps [] t).1.map (fun c => c.path) = ps := by
  induction ps generalizing t with
  | nil => simp [getWeightedActionsLoop]
  | cons p ps ih =>
    rw [getWeightedActionsLoop_cons]
    simp [ih, getWeightedAction_path]

/-- The result of `getWeightedActions` after a walk without error. -/
theorem getWeightedActions_of_walk (env : Env) (parentPath : String) (t t1 : Trace)
    (ps : List String) (hwalk : ReadDirRecursive env parentPath t = ((ps, none), t1)) :
    getWeightedActions env parentPath t =
      (((getWeightedActionsLoop env ps [] t1).1, none), (getWeightedActionsLoop env ps [] t1).2) := by
  unfold getWeightedActions
  rw [hwalk]

/-- The function `unrarFile` in terms of the one program it starts. -/
theorem unrarFile_snd (env : Env) (path : String) (t : Trace) :
    (unrarFile env path t).2 =
      t ++ [Event.exec "unrar" ["x", path] (some (env.filepathDir path))] := by
  unfold unrarFile
  exact execRun_snd env _ _ _ t

/-- The trace after `unzipFile`: `unzip`, then `rm`. -/
theorem unzipFile_snd (env : Env) (path : String) (t : Trace) :
    (unzipFile env path t).2 =
      t ++ [Event.exec "unzip" ["-d", env.filepathDir path, path] none,
            Event.exec "rm" [path] none] := by
  rw [unzipFile_eq, cmd_snd, cmd_snd]
  simp

/-- The trace after `ReadDirRecursive`: one more walk. -/
theorem ReadDirRecursive_snd (env : Env) (path : String) (t : Trace) :
    (ReadDirRecursive env path t).2 = t ++ [Event.walk path] := by
  unfold ReadDirRecursive
  rfl

/-- The function `getWeightedActions` when the walk has failed. -/
theorem getWeightedActions_of_walk_error (env : Env) (path : String) (t : Trace) (err : String)
    (h : (ReadDirRecursive env path t).1.2 = some err) :
    getWeightedActions env path t = (([], some err), t ++ [Event.walk path]) := by
  have hs := ReadDirRecursive_snd env path t
  unfold getWeightedActions
  rcases hr : ReadDirRecursive env path t with ⟨⟨ps, e⟩, t1⟩
  rw [hr] at h hs
  simp only at h hs
  subst h
  subst hs
  rfl

/-- The function `getWeightedActions` returns the error of the walk. -/
theorem getWeightedActions_error (env : Env) (path : String) (t : Trace) :
    (getWeightedActions env path t).1.2 = (ReadDirRecursive env path t).1.2 := by
  unfold getWeightedActions
  rcases hr : ReadDirRecursive env path t with ⟨⟨ps, e⟩, t1⟩
  cases e <;> rfl

/-- The count of a separator in two strings put together. -/
theorem stringsCount_append (a b : String) (sep : Char) :
    stringsCount (a ++ b) sep = stringsCount a sep + stringsCount b sep := by
  simp [stringsCount, List.count_append]

/-- The ranked candidates have a score no greater than that of the first. -/
theorem head_score_max (env : Env) (hsort : SortContract env.sortSort) (scan rest : ByScore)
    (top : WeightedAction) (hrank : env.sortSort scan = top :: rest) :
    ∀ c ∈ scan, c.score ≤ top.score := by
  intro c hc
  have hp := sortSort_pairwise env hsort scan
  have hm : c ∈ env.sortSort scan := (hsort.1 scan).symm.subset hc
  rw [hrank] at hp hm
  rcases List.mem_cons.mp hm with h | h
  · rw [h]
  · have := (List.pairwise_cons.mp hp).1 c h
    unfold scoreGe at this
    omega

/-- The function `runDirectory` after a scan without error: the loop over the
ranked candidates, and `nil`. -/
theorem runDirectory_of_scan (env : Env) (fuel : Nat) (path : String) (t t0 : Trace)
    (scan : List WeightedAction) (hscan : getWeightedActions env path t = ((scan, none), t0)) :
    runDirectory env (fuel + 1) path t =
      (match runDirectoryLoop env (runDirectory env fuel) (env.sortSort scan) t0 with
       | none => none
       | some t2 => some (none, t2)) := by
  simp only [runDirectory, runDirectoryBody, hscan]

/-- One turn of the loop of `runDirectory`. -/
theorem runDirectoryLoop_cons (env : Env) (rd : String → Trace → Option (GoError × Trace))
    (a : WeightedAction) (rest : List WeightedAction) (t : Trace) :
    runDirectoryLoop env rd (a :: rest) t =
      (match callAction env rd a.action a.path (t ++ [candidateLine a]) with
       | none => none
       | some (none, t1) => some (t1 ++ [successLine])
       | some (some _, t1) => runDirectoryLoop env rd rest t1) := by
  rfl

/-- The loop of `runDirectory` passes over candidates whose actions all
return an error. -/
theorem runDirectoryLoop_failAll (env : Env) (rd : String → Trace → Option (GoError × Trace))
    (pre post : List WeightedAction) (t t1 : Trace) (h : failAll env rd pre t = some t1) :
    runDirectoryLoop env rd (pre ++ post) t = runDirectoryLoop env rd post t1 := by
  induction pre generalizing t with
  | nil =>
    simp only [failAll, Option.some.injEq] at h
    subst h
    rfl
  | cons a pre ih =>
    rw [List.cons_append, runDirectoryLoop_cons]
    unfold failAll at h
    rcases hc : callAction env rd a.action a.path (t ++ [candidateLine a]) with _ | ⟨err, t2⟩
    · rw [hc] at h; simp at h
    · cases err with
      | none => rw [hc] at h; simp at h
      | some e =>
        rw [hc] at h
        simp only at h ⊢
        exact ih t2 h

/-- The code point of `Char.ofNat` below the surrogates. -/
theorem toNat_ofNat_small (n : Nat) (h : n < 55296) : (Char.ofNat n).toNat = n := by
  unfold Char.ofNat
  rw [dif_pos (Or.inl h)]
  simp [Char.ofNatAux, Char.toNat, UInt32.toNat]

/-- The lower case of an ASCII capital is 32 code points up. -/
theorem toLower_upper (c : Char) (h : 65 ≤ c.toNat ∧ c.toNat ≤ 90) :
    c.toLower.toNat = c.toNat + 32 := by
  unfold Char.toLower
  simp only [ge_iff_le, h, and_self, if_true]
  exact toNat_ofNat_small _ (by omega)

/-- The lower case of what is not an ASCII capital is itself. -/
theorem toLower_not_upper (c : Char) (h : ¬ (65 ≤ c.toNat ∧ c.toNat ≤ 90)) :
    c.toLower = c := by
  unfold Char.toLower
  simp only [ge_iff_le]
  rw [if_neg h]

/-- Two characters of the same ASCII lower case are equal or are both ASCII
letters. -/
theorem eq_or_letters_of_toLower_eq (c d : Char) (h : c.toLower = d.toLower) :
    c = d ∨ (65 ≤ c.toNat ∧ c.toNat < 128 ∧ 65 ≤ d.toNat ∧ d.toNat < 128) := by
  by_cases hc : 65 ≤ c.toNat ∧ c.toNat ≤ 90
  · by_cases hd : 65 ≤ d.toNat ∧ d.toNat ≤ 90
    · right; omega
    · right
      have h1 := toLower_upper c hc
      rw [h, toLower_not_upper d hd] at h1
      omega
  · by_cases hd : 65 ≤ d.toNat ∧ d.toNat ≤ 90
    · right
      have h1 := toLower_upper d hd
      rw [← h, toLower_not_upper c hc] at h1
      omega
    · left
      rw [toLower_not_upper c hc, toLower_not_upper d hd] at h
      exact h

/-- Two characters of the same ASCII lower case: one is a given character
below `A` exactly when the other is. -/
theorem eq_iff_of_toLower_eq (c d x : Char) (h : c.toLower = d.toLower) (hx : x.toNat < 65) :
    c = x ↔ d = x := by
  rcases eq_or_letters_of_toLower_eq c d h with h1 | h1
  · rw [h1]
  · constructor
    · intro hcx; rw [hcx] at h1; omega
    · intro hdx; rw [hdx] at h1; omega

/-- Two characters of the same ASCII lower case have the same lower case in
`strings.ToLower`. -/
theorem toLowerRune_eq_of_toLower_eq (env : Env) (c d : Char) (h : c.toLower = d.toLower) :
    toLowerRune env c = toLowerRune env d := by
  rcases eq_or_letters_of_toLower_eq c d h with h1 | h1
  · rw [h1]
  · unfold toLowerRune
    rw [if_pos h1.2.1, if_pos h1.2.2.2, h]

/-- Lists of the same ASCII lower case have the same lower case in
`strings.ToLower`. -/
theorem map_toLowerRune_eq (env : Env) (l l2 : List Char)
    (h : l.map Char.toLower = l2.map Char.toLower) :
    l.map (toLowerRune env) = l2.map (toLowerRune env) := by
  induction l generalizing l2 with
  | nil =>
    cases l2 with
    | nil => rfl
    | cons d l2 => simp at h
  | cons c l ih =>
    cases l2 with
    | nil => simp at h
    | cons d l2 =>
      simp only [List.map_cons, List.cons.injEq] at h ⊢
      exact ⟨toLowerRune_eq_of_toLower_eq env c d h.1, ih l2 h.2⟩

/-- Lists of the same ASCII lower case have the same number of separators. -/
theorem count_slash_eq (l l2 : List Char) (h : l.map Char.toLower = l2.map Char.toLower) :
    l.count '/' = l2.count '/' := by
  induction l generalizing l2 with
  | nil =>
    cases l2 with
    | nil => rfl
    | cons d l2 => simp at h
  | cons c l ih =>
    cases l2 with
    | nil => simp at h
    | cons d l2 =>
      simp only [List.map_cons, List.cons.injEq] at h
      have hiff := eq_iff_of_toLower_eq c d '/' h.1 (by decide)
      rw [List.count_cons, List.count_cons, ih l2 h.2]
      by_cases hc : c = '/'
      · have hd := hiff.mp hc
        simp [hc, hd]
      · have hd : ¬ d = '/' := fun hd => hc (hiff.mpr hd)
        simp [hc, hd]

/-- The loop of `filepath.Ext` on two lists of the same ASCII lower case
returns extensions of the same ASCII lower case. -/
theorem extLoop_toLower_eq (l l2 acc acc2 : List Char)
    (h : l.map Char.toLower = l2.map Char.toLower)
    (hacc : acc.map Char.toLower = acc2.map Char.toLower) :
    (extLoop l acc).map Char.toLower = (extLoop l2 acc2).map Char.toLower := by
  induction l generalizing l2 acc acc2 with
  | nil =>
    cases l2 with
    | nil => rfl
    | cons d l2 => simp at h
  | cons c l ih =>
    cases l2 with
    | nil => simp at h
    | cons d l2 =>
      simp only [List.map_cons, List.cons.injEq] at h
      have hs := eq_iff_of_toLower_eq c d '/' h.1 (by decide)
      have hd := eq_iff_of_toLower_eq c d '.' h.1 (by decide)
      unfold extLoop
      by_cases hc : c = '/'
      · rw [if_pos hc, if_pos (hs.mp hc)]
      · rw [if_neg hc, if_neg (fun hd2 => hc (hs.mpr hd2))]
        by_cases hp : c = '.'
        · rw [if_pos hp, if_pos (hd.mp hp)]
          simp only [List.map_cons, hacc]
        · rw [if_neg hp, if_neg (fun hd2 => hp (hd.mpr hd2))]
          exact ih l2 (c :: acc) (d :: acc2) h.2 (by simp [h.1, hacc])

/-- The action of a candidate is the one the source pairs with its name. -/
theorem getWeightedAction_action (env : Env) (path : String) (t : Trace) :
    (getWeightedAction env path t).1.action = actionOfName (getWeightedAction env path t).1.name := by
  unfold getWeightedAction
  generalize stringsToLower env (filepathExt path) = ext
  generalize getMime env path t = m
  obtain ⟨mimeType, t1⟩ := m
  dsimp only
  by_cases h1 : ext = ".zip"
  · subst h1; simp [actionOfName]
  by_cases h2 : ext = ".rar"
  · subst h2; simp [actionOfName]
  by_cases h3 : ext = ".jar"
  · subst h3; simp [actionOfName]
  by_cases h4 : ext = ".exe"
  · subst h4; simp [actionOfName]
  by_cases h5 : ext = ".love"
  · subst h5; simp [actionOfName]
  by_cases h6 : ext = ".sh"
  · subst h6; simp [actionOfName]
  simp only [h1, h2, h3, h4, h5, h6, if_false]
  by_cases h7 : ext = "" ∨ ext = ".x86" ∨ ext = ".x86_64" ∨ ext = ".bin"
  · by_cases h8 : mimeType = "application/x-executable"
    · simp [h7, h8, actionOfName]
    · simp [h7, h8, actionOfName]
  · simp [h7, actionOfName]

/-! ## The claims -/

/-- C1, as the specification states it, fails.  In `/g` the top-ranked
candidate is `a.jar` and `java` fails on it with `exit status 1`; the run then
attempts the second-ranked candidate `b.exe` (the trace shows `wine`) and
returns `nil`, not the error of `java`. -/
theorem C1_counterexample :
    jarExeEnv.sortSort (getWeightedActions jarExeEnv "/g" []).1.1 =
      [{ name := "java", score := 28, path := "/g/a.jar", action := Action.runJar },
       { name := "windows", score := 18, path := "/g/b.exe", action := Action.runWine },
       { name := "nothing", score := -1, path := "/g", action := Action.doNothing }] ∧
    (runJar jarExeEnv "/g/a.jar"
      [Event.walk "/g", Event.exec "file" ["--brief", "--mime", "/g"] none,
       Event.printf "%d: %s: %s\n"
         [PrintArg.int 28, PrintArg.str "java", PrintArg.str "/g/a.jar"]]).1 =
      some "exit status 1" ∧
    runDirectory jarExeEnv 1 "/g" [] =
      some (none,
        [Event.walk "/g",
         Event.exec "file" ["--brief", "--mime", "/g"] none,
         Event.printf "%d: %s: %s\n"
           [PrintArg.int 28, PrintArg.str "java", PrintArg.str "/g/a.jar"],
         Event.exec "java" ["-jar", "/g/a.jar"] (some "/g"),
         Event.printf "%d: %s: %s\n"
           [PrintArg.int 18, PrintArg.str "windows", PrintArg.str "/g/b.exe"],
         Event.exec "wine" ["/g/b.exe"] (some "/g"),
         Event.printf "Error: %s\n" [PrintArg.str "success"]]) := by
  refine ⟨by decide, by decide, by decide⟩

/-- C1, amended.  When the scan succeeds, the ranked list has at least two
candidates and the action of the top-ranked one returns an error, then
`runDirectory` goes on with the second-ranked candidate: it prints its line,
invokes its action on the trace the failed action left, and continues from
there; and whatever `runDirectory` returns then is `nil`, never the error of
the top-ranked candidate. -/
theorem C1_failed_top_candidate_falls_through (env : Env) (fuel : Nat) (path : String)
    (t t0 t1 : Trace) (scan rest : List WeightedAction) (a b : WeightedAction) (e : String)
    (hscan : getWeightedActions env path t = ((scan, none), t0))
    (hrank : env.sortSort scan = a :: b :: rest)
    (hfail : callAction env (runDirectory env fuel) a.action a.path (t0 ++ [candidateLine a]) =
      some (some e, t1)) :
    runDirectory env (fuel + 1) path t =
      (match callAction env (runDirectory env fuel) b.action b.path (t1 ++ [candidateLine b]) with
       | none => none
       | some (none, t2) => some (none, t2 ++ [successLine])
       | some (some _, t2) =>
         match runDirectoryLoop env (runDirectory env fuel) rest t2 with
         | none => none
         | some t3 => some (none, t3)) ∧
    ∀ r : GoError × Trace, runDirectory env (fuel + 1) path t = some r → r.1 = none := by
  have hbody : ∀ r : GoError × Trace, runDirectory env (fuel + 1) path t = some r → r.1 = none := by
    intro r hr
    simp only [runDirectory, runDirectoryBody, hscan] at hr
    split at hr
    · exact absurd hr (by simp)
    · cases hr; rfl
  refine ⟨?_, hbody⟩
  simp only [runDirectory, runDirectoryBody, hscan, hrank, runDirectoryLoop]
  unfold candidateLine at hfail
  rw [hfail]
  simp only [candidateLine, successLine, errorToString]
  rcases hb : callAction env (runDirectory env fuel) b.action b.path
      (t1 ++ [Event.printf "%d: %s: %s\n"
        [PrintArg.int b.score, PrintArg.str b.name, PrintArg.str b.path]]) with _ | ⟨err, t2⟩
  · rfl
  · cases err <;> rfl

/-- The hypotheses of `C1_failed_top_candidate_falls_through` hold in `/g`
with `a.jar` first and `b.exe` second, and the theorem gives the run there. -/
theorem C1_failed_top_candidate_falls_through_witness :
    runDirectory jarExeEnv 1 "/g" [] =
      some (none,
        [Event.walk "/g",
         Event.exec "file" ["--brief", "--mime", "/g"] none,
         Event.printf "%d: %s: %s\n"
           [PrintArg.int 28, PrintArg.str "java", PrintArg.str "/g/a.jar"],
         Event.exec "java" ["-jar", "/g/a.jar"] (some "/g"),
         Event.printf "%d: %s: %s\n"
           [PrintArg.int 18, PrintArg.str "windows", PrintArg.str "/g/b.exe"],
         Event.exec "wine" ["/g/b.exe"] (some "/g"),
         Event.printf "Error: %s\n" [PrintArg.str "success"]]) ∧
    ∀ r : GoError × Trace, runDirectory jarExeEnv 1 "/g" [] = some r → r.1 = none := by
  have h := C1_failed_top_candidate_falls_through jarExeEnv 0 "/g" []
    [Event.walk "/g", Event.exec "file" ["--brief", "--mime", "/g"] none]
    [Event.walk "/g", Event.exec "file" ["--brief", "--mime", "/g"] none,
     Event.printf "%d: %s: %s\n" [PrintArg.int 28, PrintArg.str "java", PrintArg.str "/g/a.jar"],
     Event.exec "java" ["-jar", "/g/a.jar"] (some "/g")]
    [{ name := "nothing", score := -1, path := "/g", action := Action.doNothing },
     { name := "java", score := 28, path := "/g/a.jar", action := Action.runJar },
     { name := "windows", score := 18, path := "/g/b.exe", action := Action.runWine }]
    [{ name := "nothing", score := -1, path := "/g", action := Action.doNothing }]
    { name := "java", score := 28, path := "/g/a.jar", action := Action.runJar }
    { name := "windows", score := 18, path := "/g/b.exe", action := Action.runWine }
    "exit status 1" (by decide) (by decide) (by decide)
  exact ⟨h.1.trans (by decide), h.2⟩

/-- C2.  For every path, in every environment (so for every sniffed media
type), the candidate `getWeightedAction` returns has the strategy name of the
catalog table for the lower-cased extension and the media type of `getMime`,
its score is the base weight of the table minus the number of `/` in the
path, and its path is the input path. -/
theorem C2_getWeightedAction_catalog (env : Env) (path : String) (t : Trace) :
    (getWeightedAction env path t).1.name =
      (catalogTable (stringsToLower env (filepathExt path)) (getMime env path t).1).1 ∧
    (getWeightedAction env path t).1.score =
      (catalogTable (stringsToLower env (filepathExt path)) (getMime env path t).1).2 -
        (stringsCount path '/' : Int) ∧
    (getWeightedAction env path t).1.path = path := by
  exact getWeightedAction_catalog env path t

/-- C3, as the specification states it, fails.  Scanning the root `/tmp/g`,
the root entry is a do-nothing candidate of score -2, not 0, and the archive
`a.zip` right under the root scores 7, not 10: the two separators of the
root's own path are counted as well. -/
theorem C3_counterexample :
    (getWeightedActions zipInTmpEnv "/tmp/g" []).1 =
      ([{ name := "nothing", score := -2, path := "/tmp/g", action := Action.doNothing },
        { name := "unzip", score := 7, path := "/tmp/g/a.zip",
          action := Action.unzipFileAndRun }], none) ∧
    (getWeightedAction zipInTmpEnv "/tmp/g" [Event.walk "/tmp/g"]).1.score ≠
      baseWeight (getWeightedAction zipInTmpEnv "/tmp/g" [Event.walk "/tmp/g"]).1.name - 0 := by
  refine ⟨by decide, by decide⟩

/-- C3, amended.  The depth subtracted from the base weight is the number of
`/` in the whole path of the entry: for an entry whose path is the root
followed by `rel`, the separators of the root's own path plus those of `rel`.
The root entry itself scores its base weight minus the number of separators
in the root's path. -/
theorem C3_depth_counts_whole_path (env : Env) (root rel : String) (t : Trace) :
    (getWeightedAction env (root ++ rel) t).1.score =
      baseWeight (getWeightedAction env (root ++ rel) t).1.name -
        ((stringsCount root '/' : Int) + (stringsCount rel '/' : Int)) ∧
    (getWeightedAction env root t).1.score =
      baseWeight (getWeightedAction env root t).1.name - (stringsCount root '/' : Int) := by
  refine ⟨?_, getWeightedAction_score env root t⟩
  rw [getWeightedAction_score env (root ++ rel) t]
  simp [stringsCount, List.count_append]

/-- C4, as the specification states it, fails.  The scan of `/g` discovers
`a.jar` before `b.jar`, both of score 28.  The ShellSort pass of `sort.Sort`
swaps `a.jar` (index 1) with `game` (index 7), the insertion sort then leaves
`a.jar` behind `b.jar`: the ranked list has the two ties in the reverse of
their discovery order, while this `sort.Sort` keeps all that the library
promises of it. -/
theorem C4_counterexample :
    SortContract twoJarsEnv.sortSort ∧
    (getWeightedActions twoJarsEnv "/g" []).1.1 =
      [{ name := "nothing", score := -1, path := "/g", action := Action.doNothing },
       { name := "java", score := 28, path := "/g/a.jar", action := Action.runJar },
       { name := "java", score := 28, path := "/g/b.jar", action := Action.runJar },
       { name := "nothing", score := -2, path := "/g/c.txt", action := Action.doNothing },
       { name := "nothing", score := -2, path := "/g/d.txt", action := Action.doNothing },
       { name := "nothing", score := -2, path := "/g/e.txt", action := Action.doNothing },
       { name := "nothing", score := -2, path := "/g/f.txt", action := Action.doNothing },
       { name := "native", score := 38, path := "/g/game", action := Action.runExecutable }] ∧
    twoJarsEnv.sortSort (getWeightedActions twoJarsEnv "/g" []).1.1 =
      [{ name := "native", score := 38, path := "/g/game", action := Action.runExecutable },
       { name := "java", score := 28, path := "/g/b.jar", action := Action.runJar },
       { name := "java", score := 28, path := "/g/a.jar", action := Action.runJar },
       { name := "nothing", score := -1, path := "/g", action := Action.doNothing },
       { name := "nothing", score := -2, path := "/g/c.txt", action := Action.doNothing },
       { name := "nothing", score := -2, path := "/g/d.txt", action := Action.doNothing },
       { name := "nothing", score := -2, path := "/g/e.txt", action := Action.doNothing },
       { name := "nothing", score := -2, path := "/g/f.txt", action := Action.doNothing }] := by
  refine ⟨shellInsertionSort_contract, by decide, by decide⟩

/-- C4, amended.  The ranking step is the sort `sort.Sort`, which is not
stable.  Given what `sort.Sort` promises, the ranked list is a permutation of the scan result, so candidates
with equal scores are all kept, and they stay together (a candidate ranked
between two candidates of equal score has that score too), but their order
among themselves is whatever `sort.Sort` leaves, not the discovery order. -/
theorem C4_ranking_keeps_ties_together (env : Env) (hsort : SortContract env.sortSort)
    (scan l1 l2 l3 : ByScore) (a b : WeightedAction)
    (h : env.sortSort scan = l1 ++ a :: (l2 ++ b :: l3))
    (hab : a.score = b.score) :
    (env.sortSort scan).Perm scan ∧ ∀ c ∈ l2, c.score = a.score := by
  refine ⟨hsort.1 scan, ?_⟩
  intro c hc
  have hp := sortSort_pairwise env hsort scan
  rw [h] at hp
  have hp2 := (List.pairwise_append.mp hp).2.1
  rw [List.pairwise_cons] at hp2
  have hac : scoreGe a c := hp2.1 c (List.mem_append_left _ hc)
  have hcb : scoreGe c b :=
    (List.pairwise_append.mp hp2.2).2.2 c hc b (List.mem_cons_self _ _)
  unfold scoreGe at hac hcb
  omega

/-- The hypotheses of `C4_ranking_keeps_ties_together` hold for the ranked
list of `/g`, with `c.txt` and `f.txt` as the two ties. -/
theorem C4_ranking_keeps_ties_together_witness :
    (twoJarsEnv.sortSort (getWeightedActions twoJarsEnv "/g" []).1.1).Perm
      (getWeightedActions twoJarsEnv "/g" []).1.1 ∧
    ∀ c ∈ [({ name := "nothing", score := -2, path := "/g/d.txt",
              action := Action.doNothing } : WeightedAction),
           { name := "nothing", score := -2, path := "/g/e.txt", action := Action.doNothing }],
      c.score = -2 :=
  C4_ranking_keeps_ties_together twoJarsEnv shellInsertionSort_contract
    (getWeightedActions twoJarsEnv "/g" []).1.1
    [{ name := "native", score := 38, path := "/g/game", action := Action.runExecutable },
     { name := "java", score := 28, path := "/g/b.jar", action := Action.runJar },
     { name := "java", score := 28, path := "/g/a.jar", action := Action.runJar },
     { name := "nothing", score := -1, path := "/g", action := Action.doNothing }]
    [{ name := "nothing", score := -2, path := "/g/d.txt", action := Action.doNothing },
     { name := "nothing", score := -2, path := "/g/e.txt", action := Action.doNothing }]
    []
    { name := "nothing", score := -2, path := "/g/c.txt", action := Action.doNothing }
    { name := "nothing", score := -2, path := "/g/f.txt", action := Action.doNothing }
    (by decide) (by decide)

/-- C5, as the specification states it, fails.  In the tree under `/g` the
root is a do-nothing candidate of score -1 and the archive eleven directories
down is an `unzip` candidate of score -2: the do-nothing score is not lower,
and the ranked list starts with the do-nothing candidate. -/
theorem C5_counterexample :
    (getWeightedAction deepZipEnv "/g" []).1.name = "nothing" ∧
    (getWeightedAction deepZipEnv "/g/1/2/3/4/5/6/7/8/9/10/a.zip" []).1.name = "unzip" ∧
    ¬ ((getWeightedAction deepZipEnv "/g" []).1.score <
        (getWeightedAction deepZipEnv "/g/1/2/3/4/5/6/7/8/9/10/a.zip" []).1.score) ∧
    (deepZipEnv.sortSort (getWeightedActions deepZipEnv "/g" []).1.1).head? =
      some { name := "nothing", score := -1, path := "/g", action := Action.doNothing } := by
  refine ⟨by decide, by decide, by decide, by decide⟩

/-- C5, amended.  Between a do-nothing candidate and a candidate of a real
strategy, the do-nothing score is strictly lower exactly when the real
candidate lies fewer separators deeper than its base weight; so it is
strictly lower whenever the real candidate is fewer than 10 separators deeper
than the do-nothing one, and at equal depth always. -/
theorem C5_nothing_below_real_within_weight (env : Env) (p q : String) (tp tq : Trace)
    (hp : (getWeightedAction env p tp).1.name = "nothing")
    (hq : (getWeightedAction env q tq).1.name ≠ "nothing") :
    ((getWeightedAction env p tp).1.score < (getWeightedAction env q tq).1.score ↔
      (stringsCount q '/' : Int) - (stringsCount p '/' : Int) <
        baseWeight (getWeightedAction env q tq).1.name) ∧
    (stringsCount q '/' < stringsCount p '/' + 10 →
      (getWeightedAction env p tp).1.score < (getWeightedAction env q tq).1.score) := by
  have hw := getWeightedAction_weight_ge env q tq hq
  rw [getWeightedAction_score env p tp, getWeightedAction_score env q tq, hp]
  have h0 : baseWeight "nothing" = 0 := by decide
  rw [h0]
  constructor
  · constructor <;> intro h <;> omega
  · intro h; omega

/-- The hypotheses of `C5_nothing_below_real_within_weight` hold for the root
`/tmp/g` and the archive `a.zip` under it. -/
theorem C5_nothing_below_real_within_weight_witness :
    (getWeightedAction zipInTmpEnv "/tmp/g" []).1.score <
      (getWeightedAction zipInTmpEnv "/tmp/g/a.zip" []).1.score :=
  (C5_nothing_below_real_within_weight zipInTmpEnv "/tmp/g" "/tmp/g/a.zip" [] []
    (by decide) (by decide)).2 (by decide)

/-- C6 holds for `unzipFile` and fails for `unrarFile`.  After `unzip` the
command `rm path` is run whatever `unzip` returned, and the value returned is
the error of `unzip` alone.  `unrarFile` runs `unrar x path` and nothing else:
no deletion of the archive is attempted, after a success or after a
failure. -/
theorem C6_unrarFile_attempts_no_deletion (env : Env) (path : String) (t : Trace) :
    ((unzipFile env path t).2 =
        t ++ [Event.exec "unzip" ["-d", env.filepathDir path, path] none,
              Event.exec "rm" [path] none] ∧
      (unzipFile env path t).1 =
        (cmd env "unzip" ["-d", env.filepathDir path, path] t).1.2) ∧
    (unrarFile env path t).2 =
      t ++ [Event.exec "unrar" ["x", path] (some (env.filepathDir path))] ∧
    ∀ (arg : List String) (dir : Option String),
      Event.exec "rm" arg dir ∈ (unrarFile env path t).2 → Event.exec "rm" arg dir ∈ t := by
  have hrar : (unrarFile env path t).2 =
      t ++ [Event.exec "unrar" ["x", path] (some (env.filepathDir path))] := by
    unfold unrarFile
    exact execRun_snd env _ _ _ t
  refine ⟨⟨?_, ?_⟩, hrar, ?_⟩
  rotate_left 2
  · intro arg dir h
    rw [hrar, List.mem_append, List.mem_singleton] at h
    rcases h with h | h
    · exact h
    · injection h with h1 _ _
      exact absurd h1 (by decide)
  · rw [unzipFile_eq, cmd_snd, cmd_snd]
    simp
  · rw [unzipFile_eq]

/-- C7, as the specification states it, fails.  On the flat directory `/g`
with `notes.txt` and `photo.jpg` the run returns `nil` after attempting one
do-nothing candidate, but the scan has started an external program: the
sniffer `file` on the root entry `/g`, whose extension is empty. -/
theorem C7_counterexample :
    runDirectory txtJpgEnv 1 "/g" [] =
      some (none,
        [Event.walk "/g",
         Event.exec "file" ["--brief", "--mime", "/g"] none,
         Event.printf "%d: %s: %s\n"
           [PrintArg.int (-1), PrintArg.str "nothing", PrintArg.str "/g"],
         Event.printf "Error: %s\n" [PrintArg.str "success"]]) ∧
    ¬ (∀ r : GoError × Trace, runDirectory txtJpgEnv 1 "/g" [] = some r →
        ∀ name arg dir, Event.exec name arg dir ∉ r.2) := by
  have h : runDirectory txtJpgEnv 1 "/g" [] =
      some (none,
        [Event.walk "/g",
         Event.exec "file" ["--brief", "--mime", "/g"] none,
         Event.printf "%d: %s: %s\n"
           [PrintArg.int (-1), PrintArg.str "nothing", PrintArg.str "/g"],
         Event.printf "Error: %s\n" [PrintArg.str "success"]]) := by decide
  refine ⟨h, ?_⟩
  intro hall
  exact hall _ h "file" ["--brief", "--mime", "/g"] none (by simp)

/-- C7, amended.  On a flat directory whose files have extensions that are
neither in the catalog nor sniffed, and whose root entry is classified as
`nothing`, `runDirectory` returns `nil` after attempting exactly one
candidate, the top-ranked one, which is a do-nothing candidate.  Over the
whole dispatch no launcher or extractor is started; the only external program
is the sniffer `file`, started once on the root entry when the root's
extension is empty, `.x86`, `.x86_64` or `.bin`, and not at all otherwise. -/
theorem C7_unmatched_flat_directory (env : Env) (hsort : SortContract env.sortSort)
    (fuel : Nat) (root : String) (files : List String) (t : Trace)
    (hwalk : env.walkEntries t root =
      (root, none) :: files.map (fun f => (f, (none : GoError))))
    (hfiles : ∀ f ∈ files, unmatchedExt env f)
    (hroot : (getWeightedAction env root (t ++ [Event.walk root])).1.name = "nothing") :
    ∃ (top : WeightedAction) (rest : List WeightedAction),
      env.sortSort (nothingCandidate root :: files.map nothingCandidate) = top :: rest ∧
      top.name = "nothing" ∧ top.action = Action.doNothing ∧
      runDirectory env (fuel + 1) root t =
        some (none,
          t ++ [Event.walk root] ++
            (if sniffedExt (stringsToLower env (filepathExt root)) then
              [Event.exec "file" ["--brief", "--mime", root] none] else []) ++
            [candidateLine top, successLine]) := by
  have hread := ReadDirRecursive_no_error env root t (root :: files) (by simpa using hwalk)
  have hgwa := getWeightedAction_nothing env root (t ++ [Event.walk root]) hroot
  have hperm := hsort.1 (nothingCandidate root :: files.map nothingCandidate)
  rcases hs : env.sortSort (nothingCandidate root :: files.map nothingCandidate) with _ | ⟨top, rest⟩
  · rw [hs] at hperm
    exact absurd hperm.symm.length_eq (by simp)
  · have htop : top ∈ nothingCandidate root :: files.map nothingCandidate := by
      apply hperm.subset
      rw [hs]
      exact List.mem_cons_self _ _
    have hname : top.name = "nothing" ∧ top.action = Action.doNothing := by
      rcases List.mem_cons.mp htop with h | h
      · subst h; exact ⟨rfl, rfl⟩
      · obtain ⟨f, _, hf⟩ := List.mem_map.mp h
        subst hf; exact ⟨rfl, rfl⟩
    refine ⟨top, rest, rfl, hname.1, hname.2, ?_⟩
    simp only [runDirectory, runDirectoryBody, getWeightedActions, hread, getWeightedActionsLoop,
      hgwa, List.nil_append]
    rw [getWeightedActionsLoop_unmatched env files _ _ hfiles]
    simp only [List.singleton_append, hs, runDirectoryLoop, hname.2, callAction, doNothing,
      errorToString, candidateLine, successLine]
    split_ifs <;> simp

/-- The hypotheses of `C7_unmatched_flat_directory` hold for `/g` with
`notes.txt` and `photo.jpg`. -/
theorem C7_unmatched_flat_directory_witness :
    ∃ (top : WeightedAction) (rest : List WeightedAction),
      txtJpgEnv.sortSort (nothingCandidate "/g" ::
        ["/g/notes.txt", "/g/photo.jpg"].map nothingCandidate) = top :: rest ∧
      top.name = "nothing" ∧ top.action = Action.doNothing ∧
      runDirectory txtJpgEnv (0 + 1) "/g" [] =
        some (none,
          [] ++ [Event.walk "/g"] ++
            (if sniffedExt (stringsToLower txtJpgEnv (filepathExt "/g")) then
              [Event.exec "file" ["--brief", "--mime", "/g"] none] else []) ++
            [candidateLine top, successLine]) :=
  C7_unmatched_flat_directory txtJpgEnv insertionSortByScore_contract 0 "/g" ["/g/notes.txt", "/g/photo.jpg"] []
    (by decide) (by decide) (by decide)

/-- C8.  On a path whose lower-cased extension is `.jar`, `.love`, `.exe`,
`.zip` or `.rar`, the candidate of `getWeightedAction` (name, score, path and
action) is the same whatever the sniffer would answer, after whatever events:
replacing the oracle for external programs and the media-type parser by any
others, failing ones included, changes nothing.  The sniffer is not asked:
the trace is returned as it was given. -/
theorem C8_listed_extension_ignores_content (env : Env)
    (run2 : Trace → String → List String → Option String → Except String String)
    (parse2 : String → String) (path : String) (t t2 : Trace)
    (h : stringsToLower env (filepathExt path) ∈ [".jar", ".love", ".exe", ".zip", ".rar"]) :
    (getWeightedAction { env with run := run2, parseMediaType := parse2 } path t2).1 =
      (getWeightedAction env path t).1 ∧
    (getWeightedAction env path t).2 = t ∧
    (getWeightedAction { env with run := run2, parseMediaType := parse2 } path t2).2 = t2 := by
  have hlow : stringsToLower { env with run := run2, parseMediaType := parse2 } (filepathExt path) =
      stringsToLower env (filepathExt path) := rfl
  unfold getWeightedAction
  rw [hlow]
  generalize stringsToLower env (filepathExt path) = ext at h ⊢
  simp only [List.mem_cons, List.mem_singleton, List.not_mem_nil, or_false] at h
  rcases h with rfl | rfl | rfl | rfl | rfl <;> simp

/-- The hypothesis of `C8_listed_extension_ignores_content` holds for
`/g/a.jar`; the second sniffer fails on every file. -/
theorem C8_listed_extension_ignores_content_witness :
    (getWeightedAction { jarExeEnv with
        run := fun _ _ _ _ => Except.error "exec: file not found",
        parseMediaType := fun _ => "" } "/g/a.jar" [Event.walk "/g"]).1 =
      (getWeightedAction jarExeEnv "/g/a.jar" []).1 ∧
    (getWeightedAction jarExeEnv "/g/a.jar" []).2 = [] ∧
    (getWeightedAction { jarExeEnv with
        run := fun _ _ _ _ => Except.error "exec: file not found",
        parseMediaType := fun _ => "" } "/g/a.jar" [Event.walk "/g"]).2 = [Event.walk "/g"] :=
  C8_listed_extension_ignores_content jarExeEnv
    (fun _ _ _ _ => Except.error "exec: file not found") (fun _ => "")
    "/g/a.jar" [] [Event.walk "/g"] (by decide)

/-- C9.  On a path whose lower-cased extension is empty, `.x86`, `.x86_64` or
`.bin`, when the sniffer fails (the command `file` returns an error, or
`mime.ParseMediaType` finds no media type in its output) `getWeightedAction`
returns the do-nothing candidate: name `nothing`, score `0 - depth`, the
path, the action `doNothing`; the only event is the start of `file`. -/
theorem C9_sniffer_failure_is_no_match (env : Env) (path : String) (t : Trace)
    (hext : sniffedExt (stringsToLower env (filepathExt path)))
    (hfail : (∃ e, env.run t "file" ["--brief", "--mime", path] none = Except.error e) ∨
      (∃ out, env.run t "file" ["--brief", "--mime", path] none = Except.ok out ∧
        env.parseMediaType (stringsTrimSpace out) = "")) :
    getWeightedAction env path t =
      ({ name := "nothing", score := 0 - (stringsCount path '/' : Int), path := path,
         action := Action.doNothing },
       t ++ [Event.exec "file" ["--brief", "--mime", path] none]) := by
  have hmime : (getMime env path t).1 = "" := by
    unfold getMime cmd
    rcases hfail with ⟨e, he⟩ | ⟨out, ho, hp⟩
    · rw [he]
    · rw [ho]; exact hp
  have hl : stringsToLower env (filepathExt path) ∉
      [".zip", ".rar", ".jar", ".exe", ".love", ".sh"] := by
    unfold sniffedExt at hext
    rcases hext with h | h | h | h <;> rw [h] <;> decide
  rw [getWeightedAction_unlisted env path t hl, if_pos hext, hmime, getMime_snd]
  rw [if_neg (by decide)]
  rfl

/-- The hypotheses of `C9_sniffer_failure_is_no_match` hold for the
extension-less `/g/game` on a machine without the command `file`. -/
theorem C9_sniffer_failure_is_no_match_witness :
    getWeightedAction noFileCommandEnv "/g/game" [] =
      ({ name := "nothing", score := 0 - (stringsCount "/g/game" '/' : Int), path := "/g/game",
         action := Action.doNothing },
       [] ++ [Event.exec "file" ["--brief", "--mime", "/g/game"] none]) :=
  C9_sniffer_failure_is_no_match noFileCommandEnv "/g/game" [] (by decide)
    (Or.inl ⟨"executable file not found in PATH", rfl⟩)

/-- C10.  When `getWeightedAction` gives two paths the same strategy name and
the first path has strictly fewer separators than the second, the first
candidate has the strictly greater score, `ByScore.Less` puts it before the
second, and in the ranked list of every scan result that holds both the first
comes before the second and never after it. -/
theorem C10_shallower_outranks_deeper (env : Env) (hsort : SortContract env.sortSort)
    (p q : String) (tp tq : Trace)
    (hname : (getWeightedAction env p tp).1.name = (getWeightedAction env q tq).1.name)
    (hdepth : stringsCount p '/' < stringsCount q '/') :
    (getWeightedAction env p tp).1.score > (getWeightedAction env q tq).1.score ∧
    ByScore.Less [(getWeightedAction env p tp).1, (getWeightedAction env q tq).1] 0 1 = true ∧
    ∀ scan : ByScore, (getWeightedAction env p tp).1 ∈ scan →
      (getWeightedAction env q tq).1 ∈ scan →
      List.Sublist [(getWeightedAction env p tp).1, (getWeightedAction env q tq).1]
        (env.sortSort scan) ∧
      ¬ List.Sublist [(getWeightedAction env q tq).1, (getWeightedAction env p tp).1]
        (env.sortSort scan) := by
  have hscore : (getWeightedAction env p tp).1.score > (getWeightedAction env q tq).1.score := by
    rw [getWeightedAction_score env p tp, getWeightedAction_score env q tq, hname]
    omega
  refine ⟨hscore, ?_, ?_⟩
  · simp [ByScore.Less, hscore]
  · intro scan ha hb
    have hp := sortSort_pairwise env hsort scan
    have hperm := hsort.1 scan
    exact ⟨sublist_pair_of_pairwise _ _ _ hp (hperm.symm.subset ha) (hperm.symm.subset hb) hscore,
      not_sublist_pair_of_pairwise _ _ _ hp hscore⟩

/-- The hypotheses of `C10_shallower_outranks_deeper` hold for the two jars
`/g/a.jar` and `/g/lib/b.jar`. -/
theorem C10_shallower_outranks_deeper_witness :
    (getWeightedAction jarExeEnv "/g/a.jar" []).1.score >
      (getWeightedAction jarExeEnv "/g/lib/b.jar" []).1.score ∧
    ByScore.Less [(getWeightedAction jarExeEnv "/g/a.jar" []).1,
      (getWeightedAction jarExeEnv "/g/lib/b.jar" []).1] 0 1 = true ∧
    ∀ scan : ByScore, (getWeightedAction jarExeEnv "/g/a.jar" []).1 ∈ scan →
      (getWeightedAction jarExeEnv "/g/lib/b.jar" []).1 ∈ scan →
      List.Sublist [(getWeightedAction jarExeEnv "/g/a.jar" []).1,
        (getWeightedAction jarExeEnv "/g/lib/b.jar" []).1] (jarExeEnv.sortSort scan) ∧
      ¬ List.Sublist [(getWeightedAction jarExeEnv "/g/lib/b.jar" []).1,
        (getWeightedAction jarExeEnv "/g/a.jar" []).1] (jarExeEnv.sortSort scan) :=
  C10_shallower_outranks_deeper jarExeEnv insertionSortByScore_contract "/g/a.jar" "/g/lib/b.jar" [] []
    (by decide) (by decide)

/-- C11.  When the directory walk succeeds with the path list `ps`,
`getWeightedActions` returns no error and a list with exactly one candidate
for each entry: it has the length of `ps`, its paths are `ps` in order, and
its candidate at index `i` is the one `getWeightedAction` returns for `ps[i]`
(called after the events of the entries before it). -/
theorem C11_one_candidate_per_entry (env : Env) (parentPath : String) (t t1 : Trace)
    (ps : List String) (hwalk : ReadDirRecursive env parentPath t = ((ps, none), t1)) :
    (getWeightedActions env parentPath t).1.2 = none ∧
    (getWeightedActions env parentPath t).1.1.length = ps.length ∧
    (getWeightedActions env parentPath t).1.1.map (fun c => c.path) = ps ∧
    ∀ (i : Nat) (p : String), ps[i]? = some p →
      (getWeightedActions env parentPath t).1.1[i]? =
        some (getWeightedAction env p (getWeightedActionsLoop env (ps.take i) [] t1).2).1 ∧
      (getWeightedAction env p (getWeightedActionsLoop env (ps.take i) [] t1).2).1.path = p := by
  rw [getWeightedActions_of_walk env parentPath t t1 ps hwalk]
  refine ⟨rfl, getWeightedActionsLoop_length env ps t1, getWeightedActionsLoop_paths env ps t1, ?_⟩
  intro i p hp
  exact ⟨getWeightedActionsLoop_getElem env ps t1 i p hp, getWeightedAction_path env p _⟩

/-- The hypothesis of `C11_one_candidate_per_entry` holds for the walk of `/g`
with its three entries. -/
theorem C11_one_candidate_per_entry_witness :
    (getWeightedActions jarExeEnv "/g" []).1.2 = none ∧
    (getWeightedActions jarExeEnv "/g" []).1.1.length = ["/g", "/g/a.jar", "/g/b.exe"].length ∧
    (getWeightedActions jarExeEnv "/g" []).1.1.map (fun c => c.path) =
      ["/g", "/g/a.jar", "/g/b.exe"] ∧
    ∀ (i : Nat) (p : String), ["/g", "/g/a.jar", "/g/b.exe"][i]? = some p →
      (getWeightedActions jarExeEnv "/g" []).1.1[i]? =
        some (getWeightedAction jarExeEnv p
          (getWeightedActionsLoop jarExeEnv (["/g", "/g/a.jar", "/g/b.exe"].take i) []
            [Event.walk "/g"]).2).1 ∧
      (getWeightedAction jarExeEnv p
          (getWeightedActionsLoop jarExeEnv (["/g", "/g/a.jar", "/g/b.exe"].take i) []
            [Event.walk "/g"]).2).1.path = p :=
  C11_one_candidate_per_entry jarExeEnv "/g" [] [Event.walk "/g"]
    ["/g", "/g/a.jar", "/g/b.exe"] (by decide)

/-- C12.  For every archive path, `unzipFileAndRun` and `unrarFileAndRun`
return the error of the extractor when it reports one, and then the only
events are those of the extraction (no directory is walked again); when the
extractor succeeds, their result is exactly the result of `runDirectory` on
`filepath.Dir` of the path, called after the events of the extraction. -/
theorem C12_extract_then_recurse (env : Env) (fuel : Nat) (path : String) (t : Trace) :
    unzipFileAndRun env (runDirectory env fuel) path t =
      (match (unzipFile env path t).1 with
       | some err =>
         some (some err,
           t ++ [Event.exec "unzip" ["-d", env.filepathDir path, path] none,
                 Event.exec "rm" [path] none])
       | none =>
         runDirectory env fuel (env.filepathDir path)
           (t ++ [Event.exec "unzip" ["-d", env.filepathDir path, path] none,
                  Event.exec "rm" [path] none])) ∧
    unrarFileAndRun env (runDirectory env fuel) path t =
      (match (unrarFile env path t).1 with
       | some err =>
         some (some err, t ++ [Event.exec "unrar" ["x", path] (some (env.filepathDir path))])
       | none =>
         runDirectory env fuel (env.filepathDir path)
           (t ++ [Event.exec "unrar" ["x", path] (some (env.filepathDir path))])) := by
  constructor
  · have hs := unzipFile_snd env path t
    unfold unzipFileAndRun
    rcases hz : unzipFile env path t with ⟨err, t1⟩
    rw [hz] at hs
    simp only at hs
    subst hs
    cases err <;> rfl
  · have hs := unrarFile_snd env path t
    unfold unrarFileAndRun
    rcases hz : unrarFile env path t with ⟨err, t1⟩
    rw [hz] at hs
    simp only at hs
    subst hs
    cases err <;> rfl

/-- C13.  When the directory walk fails, `getWeightedActions` returns the
error of the walk with an empty candidate list, whatever paths the walk had
enumerated, and `runDirectory` returns the same error; the only event is the
walk itself: nothing is classified, printed or attempted.
`getWeightedActions` returns an error in no other case: its error is always
that of the walk. -/
theorem C13_walk_failure_propagates (env : Env) (fuel : Nat) (path : String) (t : Trace)
    (err : String) (hfail : (ReadDirRecursive env path t).1.2 = some err) :
    getWeightedActions env path t = (([], some err), t ++ [Event.walk path]) ∧
    runDirectory env (fuel + 1) path t = some (some err, t ++ [Event.walk path]) ∧
    ∀ (p : String) (u : Trace),
      (getWeightedActions env p u).1.2 = (ReadDirRecursive env p u).1.2 := by
  have hg := getWeightedActions_of_walk_error env path t err hfail
  refine ⟨hg, ?_, fun p u => getWeightedActions_error env p u⟩
  simp only [runDirectory, runDirectoryBody, hg]

/-- The hypothesis of `C13_walk_failure_propagates` holds for the root
`/missing`, on which the walk has passed one path to its callback before it
fails. -/
theorem C13_walk_failure_propagates_witness :
    (ReadDirRecursive jarExeEnv "/missing" []).1.1 = ["/missing"] ∧
    getWeightedActions jarExeEnv "/missing" [] =
      (([], some "no such file or directory"), [] ++ [Event.walk "/missing"]) ∧
    runDirectory jarExeEnv (0 + 1) "/missing" [] =
      some (some "no such file or directory", [] ++ [Event.walk "/missing"]) ∧
    ∀ (p : String) (u : Trace),
      (getWeightedActions jarExeEnv p u).1.2 = (ReadDirRecursive jarExeEnv p u).1.2 :=
  ⟨by decide,
   C13_walk_failure_propagates jarExeEnv 0 "/missing" [] "no such file or directory"
    (by decide)⟩

/-- C14.  Under every scan root, for a `.exe` file right under the root and
an extension-less file two directories further down that is sniffed as
`application/x-executable`: the `.exe` candidate is `windows` and scores 20
less the separators up to the file, the other is `native` and scores 38 less
the same number, so the native score is greater by exactly 18;
`ByScore.Less` puts the native candidate first, and in the ranked list of
every scan result that holds both it comes before the `.exe` candidate. -/
theorem C14_native_two_levels_down_beats_exe (env : Env) (hsort : SortContract env.sortSort)
    (root exeName dir1 dir2 nativeName : String) (te tn : Trace)
    (hexe : stringsToLower env (filepathExt (root ++ "/" ++ exeName)) = ".exe")
    (hnat : stringsToLower env
      (filepathExt (root ++ "/" ++ dir1 ++ "/" ++ dir2 ++ "/" ++ nativeName)) = "")
    (hmime : (getMime env (root ++ "/" ++ dir1 ++ "/" ++ dir2 ++ "/" ++ nativeName) tn).1 =
      "application/x-executable")
    (he : stringsCount exeName '/' = 0) (hd1 : stringsCount dir1 '/' = 0)
    (hd2 : stringsCount dir2 '/' = 0) (hn : stringsCount nativeName '/' = 0) :
    (getWeightedAction env (root ++ "/" ++ exeName) te).1.name = "windows" ∧
    (getWeightedAction env (root ++ "/" ++ dir1 ++ "/" ++ dir2 ++ "/" ++ nativeName) tn).1.name =
      "native" ∧
    (getWeightedAction env (root ++ "/" ++ exeName) te).1.score =
      20 - ((stringsCount root '/' : Int) + 1) ∧
    (getWeightedAction env (root ++ "/" ++ dir1 ++ "/" ++ dir2 ++ "/" ++ nativeName) tn).1.score =
      38 - ((stringsCount root '/' : Int) + 1) ∧
    (getWeightedAction env (root ++ "/" ++ dir1 ++ "/" ++ dir2 ++ "/" ++ nativeName) tn).1.score =
      (getWeightedAction env (root ++ "/" ++ exeName) te).1.score + 18 ∧
    ByScore.Less
      [(getWeightedAction env (root ++ "/" ++ dir1 ++ "/" ++ dir2 ++ "/" ++ nativeName) tn).1,
       (getWeightedAction env (root ++ "/" ++ exeName) te).1] 0 1 = true ∧
    ∀ scan : ByScore,
      (getWeightedAction env (root ++ "/" ++ dir1 ++ "/" ++ dir2 ++ "/" ++ nativeName) tn).1 ∈
        scan →
      (getWeightedAction env (root ++ "/" ++ exeName) te).1 ∈ scan →
      List.Sublist
        [(getWeightedAction env (root ++ "/" ++ dir1 ++ "/" ++ dir2 ++ "/" ++ nativeName) tn).1,
         (getWeightedAction env (root ++ "/" ++ exeName) te).1] (env.sortSort scan) := by
  have hsl : stringsCount "/" '/' = 1 := by decide
  obtain ⟨hen, hes, _⟩ := getWeightedAction_catalog env (root ++ "/" ++ exeName) te
  obtain ⟨hnn, hns, _⟩ := getWeightedAction_catalog env
    (root ++ "/" ++ dir1 ++ "/" ++ dir2 ++ "/" ++ nativeName) tn
  rw [hexe] at hen hes
  rw [hnat, hmime] at hnn hns
  have hce : catalogTable ".exe" (getMime env (root ++ "/" ++ exeName) te).1 = ("windows", 20) := by
    simp [catalogTable]
  have hcn : catalogTable "" "application/x-executable" = ("native", 40) := by
    simp [catalogTable]
  rw [hce] at hen hes
  rw [hcn] at hnn hns
  simp only [stringsCount_append, hsl, he, hd1, hd2, hn] at hes hns
  have hgt : (getWeightedAction env
      (root ++ "/" ++ dir1 ++ "/" ++ dir2 ++ "/" ++ nativeName) tn).1.score >
      (getWeightedAction env (root ++ "/" ++ exeName) te).1.score := by
    rw [hes, hns]; push_cast; omega
  refine ⟨hen, hnn, ?_, ?_, ?_, ?_, ?_⟩
  · rw [hes]; push_cast; omega
  · rw [hns]; push_cast; omega
  · rw [hes, hns]; push_cast; omega
  · simp [ByScore.Less, hgt]
  · intro scan h1 h2
    exact sublist_pair_of_pairwise _ _ _ (sortSort_pairwise env hsort scan)
      ((hsort.1 scan).symm.subset h1) ((hsort.1 scan).symm.subset h2) hgt

/-- The hypotheses of `C14_native_two_levels_down_beats_exe` hold under `/g`
for `setup.exe` and `bin/linux/game`; the run of `/g` starts `game` first and
stops there. -/
theorem C14_native_two_levels_down_beats_exe_witness :
    (getWeightedAction exeNativeEnv ("/g" ++ "/" ++ "bin" ++ "/" ++ "linux" ++ "/" ++ "game")
        []).1.score =
      (getWeightedAction exeNativeEnv ("/g" ++ "/" ++ "setup.exe") []).1.score + 18 ∧
    runDirectory exeNativeEnv 1 "/g" [] =
      some (none,
        [Event.walk "/g",
         Event.exec "file" ["--brief", "--mime", "/g"] none,
         Event.exec "file" ["--brief", "--mime", "/g/bin"] none,
         Event.exec "file" ["--brief", "--mime", "/g/bin/linux"] none,
         Event.exec "file" ["--brief", "--mime", "/g/bin/linux/game"] none,
         Event.printf "%d: %s: %s\n"
           [PrintArg.int 36, PrintArg.str "native", PrintArg.str "/g/bin/linux/game"],
         Event.chmod "/g/bin/linux/game" 493,
         Event.exec "/g/bin/linux/game" [] (some "/g/bin/linux"),
         Event.printf "Error: %s\n" [PrintArg.str "success"]]) :=
  ⟨(C14_native_two_levels_down_beats_exe exeNativeEnv insertionSortByScore_contract
      "/g" "setup.exe" "bin" "linux" "game" [] []
      (by decide) (by decide) (by decide) (by decide) (by decide) (by decide)
      (by decide)).2.2.2.2.1,
   by decide⟩

/-- C15.  Given what `sort.Sort` promises, the list `runDirectory` iterates
after ranking is a permutation of the scan result with non-increasing scores;
its first candidate has the maximum score of the whole scan, and it is the
first that is logged and attempted: the run is the line of that candidate,
the call of its action, and what follows from its result. -/
theorem C15_ranked_list_sorted_permutation (env : Env) (hsort : SortContract env.sortSort)
    (fuel : Nat) (path : String) (t t0 : Trace) (scan rest : List WeightedAction)
    (top : WeightedAction) (hscan : getWeightedActions env path t = ((scan, none), t0))
    (hrank : env.sortSort scan = top :: rest) :
    (env.sortSort scan).Perm scan ∧
    (env.sortSort scan).Pairwise (fun x y => x.score ≥ y.score) ∧
    (∀ c ∈ scan, c.score ≤ top.score) ∧
    runDirectory env (fuel + 1) path t =
      (match callAction env (runDirectory env fuel) top.action top.path
          (t0 ++ [candidateLine top]) with
       | none => none
       | some (none, t1) => some (none, t1 ++ [successLine])
       | some (some _, t1) =>
         match runDirectoryLoop env (runDirectory env fuel) rest t1 with
         | none => none
         | some t2 => some (none, t2)) := by
  refine ⟨hsort.1 scan, sortSort_pairwise env hsort scan,
    head_score_max env hsort scan rest top hrank, ?_⟩
  rw [runDirectory_of_scan env fuel path t t0 scan hscan, hrank, runDirectoryLoop_cons]
  rcases callAction env (runDirectory env fuel) top.action top.path
      (t0 ++ [candidateLine top]) with _ | ⟨err, t1⟩
  · rfl
  · cases err <;> rfl

/-- The hypotheses of `C15_ranked_list_sorted_permutation` hold for the scan
of `/g` with `game` two directories down: the native candidate of score 36
is first. -/
theorem C15_ranked_list_sorted_permutation_witness :
    (exeNativeEnv.sortSort (getWeightedActions exeNativeEnv "/g" []).1.1).Perm
      (getWeightedActions exeNativeEnv "/g" []).1.1 ∧
    ∀ c ∈ (getWeightedActions exeNativeEnv "/g" []).1.1, c.score ≤ (36 : Int) := by
  have h := C15_ranked_list_sorted_permutation exeNativeEnv insertionSortByScore_contract 0 "/g" []
    [Event.walk "/g",
     Event.exec "file" ["--brief", "--mime", "/g"] none,
     Event.exec "file" ["--brief", "--mime", "/g/bin"] none,
     Event.exec "file" ["--brief", "--mime", "/g/bin/linux"] none,
     Event.exec "file" ["--brief", "--mime", "/g/bin/linux/game"] none]
    (getWeightedActions exeNativeEnv "/g" []).1.1
    [{ name := "windows", score := 18, path := "/g/setup.exe", action := Action.runWine },
     { name := "nothing", score := -1, path := "/g", action := Action.doNothing },
     { name := "nothing", score := -2, path := "/g/bin", action := Action.doNothing },
     { name := "nothing", score := -3, path := "/g/bin/linux", action := Action.doNothing }]
    { name := "native", score := 36, path := "/g/bin/linux/game",
      action := Action.runExecutable }
    (by decide) (by decide)
  exact ⟨h.1, h.2.2.1⟩

/-- C16.  For every path of lower-cased extension `.sh`, `getWeightedAction`
returns the candidate named `shell` of base weight 30 without asking the
sniffer; its action is `runLove`, the action of every `.love` candidate, and
calling it starts the program `love` with the path as its one argument in
`filepath.Dir` of the path: no shell is started. -/
theorem C16_shell_script_runs_love (env : Env)
    (rd : String → Trace → Option (GoError × Trace)) (path : String) (t u : Trace)
    (hext : stringsToLower env (filepathExt path) = ".sh") :
    getWeightedAction env path t =
      ({ name := "shell", score := 30 - (stringsCount path '/' : Int), path := path,
         action := Action.runLove }, t) ∧
    (∀ (q : String) (tq : Trace), stringsToLower env (filepathExt q) = ".love" →
      (getWeightedAction env q tq).1.action = (getWeightedAction env path t).1.action) ∧
    callAction env rd (getWeightedAction env path t).1.action path u =
      some (runLove env path u) ∧
    (runLove env path u).2 = u ++ [Event.exec "love" [path] (some (env.filepathDir path))] := by
  have hsh : getWeightedAction env path t =
      ({ name := "shell", score := 30 - (stringsCount path '/' : Int), path := path,
         action := Action.runLove }, t) := by
    unfold getWeightedAction
    rw [hext]
    simp
  refine ⟨hsh, ?_, ?_, ?_⟩
  · intro q tq hq
    rw [hsh]
    unfold getWeightedAction
    rw [hq]
    simp
  · rw [hsh]
    rfl
  · unfold runLove
    exact execRun_snd env _ _ _ u

/-- The hypothesis of `C16_shell_script_runs_love` holds for `/g/run.sh`. -/
theorem C16_shell_script_runs_love_witness :
    getWeightedAction jarExeEnv "/g/run.sh" [] =
      ({ name := "shell", score := 30 - (stringsCount "/g/run.sh" '/' : Int),
         path := "/g/run.sh", action := Action.runLove }, []) ∧
    (runLove jarExeEnv "/g/run.sh" []).2 =
      [] ++ [Event.exec "love" ["/g/run.sh"] (some (jarExeEnv.filepathDir "/g/run.sh"))] :=
  ⟨(C16_shell_script_runs_love jarExeEnv (runDirectory jarExeEnv 0) "/g/run.sh" [] []
      (by decide)).1,
   (C16_shell_script_runs_love jarExeEnv (runDirectory jarExeEnv 0) "/g/run.sh" [] []
      (by decide)).2.2.2⟩

/-- C17.  When the scan succeeds, `runDirectory` attempts the ranked
candidates in order.  If those before some candidate all return an error and
that candidate's action returns `nil`, the run ends right after it (the
success line is the last event, no later candidate is logged or attempted)
and returns `nil`.  If every candidate returns an error, the run ends after
the last of them and returns `nil` as well.  Whatever `runDirectory` returns
after a successful scan is `nil`. -/
theorem C17_attempts_until_first_success (env : Env) (fuel : Nat) (path : String)
    (t t0 : Trace) (scan : List WeightedAction)
    (hscan : getWeightedActions env path t = ((scan, none), t0)) :
    (∀ (pre post : List WeightedAction) (c : WeightedAction) (t1 t2 : Trace),
      env.sortSort scan = pre ++ c :: post →
      failAll env (runDirectory env fuel) pre t0 = some t1 →
      callAction env (runDirectory env fuel) c.action c.path (t1 ++ [candidateLine c]) =
        some (none, t2) →
      runDirectory env (fuel + 1) path t = some (none, t2 ++ [successLine])) ∧
    (∀ t1 : Trace, failAll env (runDirectory env fuel) (env.sortSort scan) t0 = some t1 →
      runDirectory env (fuel + 1) path t = some (none, t1)) ∧
    ∀ r : GoError × Trace, runDirectory env (fuel + 1) path t = some r → r.1 = none := by
  have hrd := runDirectory_of_scan env fuel path t t0 scan hscan
  refine ⟨?_, ?_, ?_⟩
  · intro pre post c t1 t2 hsplit hpre hc
    rw [hrd, hsplit, runDirectoryLoop_failAll env _ pre (c :: post) t0 t1 hpre,
      runDirectoryLoop_cons, hc]
  · intro t1 hall
    have h := runDirectoryLoop_failAll env (runDirectory env fuel) (env.sortSort scan) [] t0 t1 hall
    rw [List.append_nil] at h
    rw [hrd, h]
    rfl
  · intro r hr
    rw [hrd] at hr
    split at hr
    · exact absurd hr (by simp)
    · cases hr; rfl

/-- The hypothesis of `C17_attempts_until_first_success` holds in `/g`, where
`java` fails on `a.jar` and `wine` then runs `b.exe`, and for the lone
`/g/a.jar` on a machine where every program fails: both runs return `nil`. -/
theorem C17_attempts_until_first_success_witness :
    runDirectory jarExeEnv (0 + 1) "/g" [] =
      some (none,
        [Event.walk "/g",
         Event.exec "file" ["--brief", "--mime", "/g"] none,
         Event.printf "%d: %s: %s\n"
           [PrintArg.int 28, PrintArg.str "java", PrintArg.str "/g/a.jar"],
         Event.exec "java" ["-jar", "/g/a.jar"] (some "/g"),
         Event.printf "%d: %s: %s\n"
           [PrintArg.int 18, PrintArg.str "windows", PrintArg.str "/g/b.exe"],
         Event.exec "wine" ["/g/b.exe"] (some "/g")] ++ [successLine]) ∧
    runDirectory noFileCommandEnv (0 + 1) "/g/a.jar" [] =
      some (none,
        [Event.walk "/g/a.jar",
         Event.printf "%d: %s: %s\n"
           [PrintArg.int 28, PrintArg.str "java", PrintArg.str "/g/a.jar"],
         Event.exec "java" ["-jar", "/g/a.jar"] (some "/g")]) :=
  ⟨(C17_attempts_until_first_success jarExeEnv 0 "/g" []
      [Event.walk "/g", Event.exec "file" ["--brief", "--mime", "/g"] none]
      [{ name := "nothing", score := -1, path := "/g", action := Action.doNothing },
       { name := "java", score := 28, path := "/g/a.jar", action := Action.runJar },
       { name := "windows", score := 18, path := "/g/b.exe", action := Action.runWine }]
      (by decide)).1
      [{ name := "java", score := 28, path := "/g/a.jar", action := Action.runJar }]
      [{ name := "nothing", score := -1, path := "/g", action := Action.doNothing }]
      { name := "windows", score := 18, path := "/g/b.exe", action := Action.runWine }
      [Event.walk "/g", Event.exec "file" ["--brief", "--mime", "/g"] none,
       Event.printf "%d: %s: %s\n"
         [PrintArg.int 28, PrintArg.str "java", PrintArg.str "/g/a.jar"],
       Event.exec "java" ["-jar", "/g/a.jar"] (some "/g")]
      [Event.walk "/g", Event.exec "file" ["--brief", "--mime", "/g"] none,
       Event.printf "%d: %s: %s\n"
         [PrintArg.int 28, PrintArg.str "java", PrintArg.str "/g/a.jar"],
       Event.exec "java" ["-jar", "/g/a.jar"] (some "/g"),
       Event.printf "%d: %s: %s\n"
         [PrintArg.int 18, PrintArg.str "windows", PrintArg.str "/g/b.exe"],
       Event.exec "wine" ["/g/b.exe"] (some "/g")]
      (by decide) (by decide) (by decide),
   (C17_attempts_until_first_success noFileCommandEnv 0 "/g/a.jar" []
      [Event.walk "/g/a.jar"]
      [{ name := "java", score := 28, path := "/g/a.jar", action := Action.runJar }]
      (by decide)).2.1
      [Event.walk "/g/a.jar",
       Event.printf "%d: %s: %s\n"
         [PrintArg.int 28, PrintArg.str "java", PrintArg.str "/g/a.jar"],
       Event.exec "java" ["-jar", "/g/a.jar"] (some "/g")]
      (by decide)⟩

/-- C18.  Extension matching is case-insensitive.  For a path `stem ++ ext`
(with `ext` any suffix of it, its final extension in particular) and any
`ext2` that differs from `ext` only in the case of ASCII letters, the
candidates of `stem ++ ext2` and of `stem ++ ext` have the same strategy
name, the same score and the same action, given the same answer of the
sniffer on the two paths. -/
theorem C18_extension_case_insensitive (env : Env) (stem ext ext2 : String) (t t2 : Trace)
    (hvar : ext2.data.map Char.toLower = ext.data.map Char.toLower)
    (hmime : (getMime env (stem ++ ext2) t2).1 = (getMime env (stem ++ ext) t).1) :
    (getWeightedAction env (stem ++ ext2) t2).1.name =
      (getWeightedAction env (stem ++ ext) t).1.name ∧
    (getWeightedAction env (stem ++ ext2) t2).1.score =
      (getWeightedAction env (stem ++ ext) t).1.score ∧
    (getWeightedAction env (stem ++ ext2) t2).1.action =
      (getWeightedAction env (stem ++ ext) t).1.action := by
  have hdata : (stem ++ ext2).data.map Char.toLower = (stem ++ ext).data.map Char.toLower := by
    simp only [String.data_append, List.map_append, hvar]
  have hrev : (stem ++ ext2).data.reverse.map Char.toLower =
      (stem ++ ext).data.reverse.map Char.toLower := by
    rw [List.map_reverse, List.map_reverse, hdata]
  have hext : stringsToLower env (filepathExt (stem ++ ext2)) =
      stringsToLower env (filepathExt (stem ++ ext)) := by
    have h := map_toLowerRune_eq env _ _ (extLoop_toLower_eq _ _ [] [] hrev rfl)
    unfold stringsToLower filepathExt
    exact congrArg String.mk h
  have hcount : stringsCount (stem ++ ext2) '/' = stringsCount (stem ++ ext) '/' :=
    count_slash_eq _ _ hdata
  obtain ⟨hn2, hs2, _⟩ := getWeightedAction_catalog env (stem ++ ext2) t2
  obtain ⟨hn, hs, _⟩ := getWeightedAction_catalog env (stem ++ ext) t
  have hname : (getWeightedAction env (stem ++ ext2) t2).1.name =
      (getWeightedAction env (stem ++ ext) t).1.name := by
    rw [hn2, hn, hext, hmime]
  refine ⟨hname, ?_, ?_⟩
  · rw [hs2, hs, hext, hmime, hcount]
  · rw [getWeightedAction_action, getWeightedAction_action, hname]

/-- The hypotheses of `C18_extension_case_insensitive` hold for `/g/game.zip`
and `/g/game.ZIP`, where `.zip` is the final extension. -/
theorem C18_extension_case_insensitive_witness :
    filepathExt ("/g/game" ++ ".zip") = ".zip" ∧
    (getWeightedAction jarExeEnv ("/g/game" ++ ".ZIP") []).1.name =
      (getWeightedAction jarExeEnv ("/g/game" ++ ".zip") []).1.name ∧
    (getWeightedAction jarExeEnv ("/g/game" ++ ".ZIP") []).1.score =
      (getWeightedAction jarExeEnv ("/g/game" ++ ".zip") []).1.score ∧
    (getWeightedAction jarExeEnv ("/g/game" ++ ".ZIP") []).1.action =
      (getWeightedAction jarExeEnv ("/g/game" ++ ".zip") []).1.action :=
  ⟨by decide,
   C18_extension_case_insensitive jarExeEnv "/g/game" ".zip" ".ZIP" [] []
    (by decide) (by decide)⟩

end Runany
